import Mathlib

/-!
Verification of the RelateNG geometry wrapper (`RelateGeometry.cpp`) and the
WKB writer (`WKBWriter.cpp`) of the GEOS geometry library, against the design
specification of the topological relation engine.

The geometry hierarchy is embedded as a tagged variant (as suggested by the
spec, §9: "Polymorphic geometry hierarchy is best expressed as a tagged
variant").  Coordinates carry integer ordinates: none of the verified code
performs coordinate arithmetic beyond 2D equality and envelope comparison,
so the embedding is exact for the properties proved here.
-/

namespace GeosSpec

/-- 2D coordinate (`geos::geom::CoordinateXY`).  Topological equality is 2D
only (spec §3), so only the two mandatory ordinates are carried. -/
structure CoordinateXY where
  x : Int
  y : Int
deriving DecidableEq, Repr

/-- `CoordinateXY::equals2D`: equality on x and y only. -/
def CoordinateXY.equals2D (p q : CoordinateXY) : Bool :=
  p.x == q.x && p.y == q.y

/-- `geos::geom::GeometryTypeId` (the eight concrete geometry types). -/
inductive GeometryTypeId where
  | GEOS_POINT
  | GEOS_LINESTRING
  | GEOS_LINEARRING
  | GEOS_POLYGON
  | GEOS_MULTIPOINT
  | GEOS_MULTILINESTRING
  | GEOS_MULTIPOLYGON
  | GEOS_GEOMETRYCOLLECTION
deriving DecidableEq, Repr

/-- The geometry hierarchy as a tagged variant.  A `point` holds an optional
coordinate (`none` = empty point); a `polygon` holds its shell ring and hole
rings as coordinate lists (rings of a polygon are `LinearRing`s, delivered as
closed coordinate sequences, spec §6). -/
inductive Geometry where
  | point (c : Option CoordinateXY)
  | lineString (pts : List CoordinateXY)
  | linearRing (pts : List CoordinateXY)
  | polygon (shell : List CoordinateXY) (holes : List (List CoordinateXY))
  | multiPoint (gs : List Geometry)
  | multiLineString (gs : List Geometry)
  | multiPolygon (gs : List Geometry)
  | geometryCollection (gs : List Geometry)
deriving Repr

/-- `Geometry::getGeometryTypeId`. -/
def Geometry.typeId : Geometry → GeometryTypeId
  | .point _ => .GEOS_POINT
  | .lineString _ => .GEOS_LINESTRING
  | .linearRing _ => .GEOS_LINEARRING
  | .polygon _ _ => .GEOS_POLYGON
  | .multiPoint _ => .GEOS_MULTIPOINT
  | .multiLineString _ => .GEOS_MULTILINESTRING
  | .multiPolygon _ => .GEOS_MULTIPOLYGON
  | .geometryCollection _ => .GEOS_GEOMETRYCOLLECTION

mutual

/-- `Geometry::isEmpty`: an atomic geometry is empty when it has no
coordinates; a collection is empty when all its components are empty. -/
def Geometry.isEmpty : Geometry → Bool
  | .point c => c.isNone
  | .lineString pts => pts.isEmpty
  | .linearRing pts => pts.isEmpty
  | .polygon shell _ => shell.isEmpty
  | .multiPoint gs => allEmpty gs
  | .multiLineString gs => allEmpty gs
  | .multiPolygon gs => allEmpty gs
  | .geometryCollection gs => allEmpty gs

/-- All geometries of a list are empty. -/
def allEmpty : List Geometry → Bool
  | [] => true
  | g :: rest => g.isEmpty && allEmpty rest

end

mutual

/-- All coordinates of a geometry, in traversal order (used to compute the
envelope, spec §6 `geometry.envelope()`). -/
def allCoords : Geometry → List CoordinateXY
  | .point none => []
  | .point (some c) => [c]
  | .lineString pts => pts
  | .linearRing pts => pts
  | .polygon shell holes => shell ++ holes.flatten
  | .multiPoint gs => allCoordsList gs
  | .multiLineString gs => allCoordsList gs
  | .multiPolygon gs => allCoordsList gs
  | .geometryCollection gs => allCoordsList gs

/-- Coordinates of a list of geometries. -/
def allCoordsList : List Geometry → List CoordinateXY
  | [] => []
  | g :: rest => allCoords g ++ allCoordsList rest

end

/-- `geos::geom::Envelope`: either the null envelope (empty geometry) or an
axis-aligned box. -/
inductive Env where
  | null
  | box (minx maxx miny maxy : Int)
deriving DecidableEq, Repr

/-- Modelled from the spec: `Envelope::intersects` (Envelope.h is not under
src/; spec §6 lists `geometry.envelope()` and §4.5 uses envelope-intersects
filtering).  Two envelopes intersect when both are non-null and their
projections overlap on both axes. -/
def Env.intersects : Env → Env → Bool
  | .null, _ => false
  | _, .null => false
  | .box nx xx ny xy, .box nx' xx' ny' xy' =>
      decide (nx ≤ xx') && decide (nx' ≤ xx) && decide (ny ≤ xy') && decide (ny' ≤ xy)

/-- Envelope of a list of coordinates (expand-to-include fold). -/
def envOfCoords (pts : List CoordinateXY) : Env :=
  pts.foldl (fun e p =>
    match e with
    | .null => .box p.x p.x p.y p.y
    | .box nx xx ny xy => .box (min nx p.x) (max xx p.x) (min ny p.y) (max xy p.y)) .null

/-- `Geometry::getEnvelopeInternal`: bounding box of all coordinates. -/
def envelopeOf (g : Geometry) : Env := envOfCoords (allCoords g)

mutual

/-- Modelled from the spec: `Geometry::getDimension` (its bodies are not
under src/).  Spec §3: Dimension is one of FALSE=-1, P=0, L=1, A=2, with
FALSE denoting the empty set; the dimension of a geometry type is P for
points, L for lines and rings, A for polygons, and a collection takes the
maximum over its components (FALSE for a collection with no components). -/
def dimensionOf : Geometry → Int
  | .point _ => 0
  | .lineString _ => 1
  | .linearRing _ => 1
  | .polygon _ _ => 2
  | .multiPoint _ => 0
  | .multiLineString _ => 1
  | .multiPolygon _ => 2
  | .geometryCollection gs => maxDimList gs

/-- Maximum dimension over a list of geometries, starting from FALSE. -/
def maxDimList : List Geometry → Int
  | [] => -1
  | g :: rest => max (dimensionOf g) (maxDimList rest)

end

mutual

/-- Modelled from the spec: `GeometryCollection::getAllGeometries` (declared
at GeometryCollection.h:204 but its body is not under src/).  Its doc comment:
"Recurse into collection and populate vector with just the simple
non-collection components of the collection."  On a non-collection geometry
(reached through the static-cast noted by the spec, §9 open questions) the
result is the geometry itself, matching the type-driven dispatch the spec
requires. -/
def getAllGeometries : Geometry → List Geometry
  | .multiPoint gs => getAllGeomList gs
  | .multiLineString gs => getAllGeomList gs
  | .multiPolygon gs => getAllGeomList gs
  | .geometryCollection gs => getAllGeomList gs
  | g => [g]

/-- Simple components of a list of geometries. -/
def getAllGeomList : List Geometry → List Geometry
  | [] => []
  | g :: rest => getAllGeometries g ++ getAllGeomList rest

end

/-- `RelateGeometry::isZeroLength(const LineString*)` (RelateGeometry.cpp
132-148): a line with at least 2 points is zero-length iff every subsequent
vertex is 2D-equal to the first (the loop iterates all vertices, per the
"NOTE !!! CHANGE FROM JTS" comment); a line with fewer than 2 points is
reported zero-length. -/
def isZeroLengthLine (line : List CoordinateXY) : Bool :=
  if 2 ≤ line.length then
    match line with
    | [] => true
    | p0 :: rest => rest.all (fun pi => p0.equals2D pi)
  else
    true

/-- `RelateGeometry::isZeroLength(const Geometry*)` (RelateGeometry.cpp
115-130): collects the simple components and requires every LINESTRING
component to be zero-length. -/
def isZeroLengthGeom (g : Geometry) : Bool :=
  (getAllGeometries g).all (fun elem =>
    match elem with
    | .lineString pts => isZeroLengthLine pts
    | _ => true)

/-- `algorithm::BoundaryNodeRule` variants (spec §4.3). -/
inductive BoundaryNodeRule where
  | Mod2
  | Endpoint
  | MultivalentEndpoint
  | MonovalentEndpoint
deriving DecidableEq, Repr

/-- Modelled from the spec: `RelatePointLocator` (RelatePointLocator.cpp is
not under src/).  Spec §3: "a lazily-built RelatePointLocator"; §4.4:
constructed from the geometry and the boundary-node rule.  Only the
construction is modelled, carrying its inputs (RelateGeometry.cpp:219
constructs it from `geom`, `m_isPrepared` and `boundaryNodeRule`). -/
structure RelatePointLocator where
  geomL : Geometry
  preparedL : Bool
  bnrL : BoundaryNodeRule
deriving Repr

/-- Constructor of `RelatePointLocator` (RelateGeometry.cpp:219). -/
def mkRelatePointLocator (g : Geometry) (prep : Bool) (r : BoundaryNodeRule) :
    RelatePointLocator :=
  { geomL := g, preparedL := prep, bnrL := r }

/-- The state of a `RelateGeometry` object: the fields set by the constructor
and by `analyzeDimensions`, plus the lazily mutated caches (`locator`,
`uniquePoints`), spec §3. -/
structure RelateGeometryState where
  geom : Geometry
  m_isPrepared : Bool
  geomEnv : Env
  boundaryNodeRule : BoundaryNodeRule
  geomDim : Int
  isLineZeroLen : Bool
  isGeomEmpty : Bool
  hasPoints : Bool
  hasLines : Bool
  hasAreas : Bool
  locator : Option RelatePointLocator
  uniquePoints : List CoordinateXY
deriving Repr

/-- The body of the element loop of `RelateGeometry::analyzeDimensions`
(RelateGeometry.cpp:95-111): skip empty elements; an element of exact type
POINT / LINESTRING / POLYGON sets the corresponding flag and raises
`geomDim`. -/
def analyzeElem (s : RelateGeometryState) (elem : Geometry) : RelateGeometryState :=
  if elem.isEmpty then s
  else
    let s :=
      if elem.typeId = .GEOS_POINT then
        { s with hasPoints := true, geomDim := max s.geomDim 0 }
      else s
    let s :=
      if elem.typeId = .GEOS_LINESTRING then
        { s with hasLines := true, geomDim := max s.geomDim 1 }
      else s
    let s :=
      if elem.typeId = .GEOS_POLYGON then
        { s with hasAreas := true, geomDim := max s.geomDim 2 }
      else s
    s

/-- `RelateGeometry::analyzeDimensions` (RelateGeometry.cpp:68-112): no-op on
an empty geometry; the six homogeneous types set their flag and dimension
directly; otherwise the simple components of the (possibly mixed) collection
are scanned. -/
def analyzeDimensions (s : RelateGeometryState) : RelateGeometryState :=
  if s.isGeomEmpty then s
  else if s.geom.typeId = .GEOS_POINT ∨ s.geom.typeId = .GEOS_MULTIPOINT then
    { s with hasPoints := true, geomDim := 0 }
  else if s.geom.typeId = .GEOS_LINESTRING ∨ s.geom.typeId = .GEOS_MULTILINESTRING then
    { s with hasLines := true, geomDim := 1 }
  else if s.geom.typeId = .GEOS_POLYGON ∨ s.geom.typeId = .GEOS_MULTIPOLYGON then
    { s with hasAreas := true, geomDim := 2 }
  else
    (getAllGeometries s.geom).foldl analyzeElem s

/-- The member initializers of the `RelateGeometry` constructor
(RelateGeometry.cpp:47-55): caches the envelope, the type dimension, the
zero-length-line flag and the empty flag; the locator and unique-point
caches start unbuilt. -/
def initRelateGeometry (input : Geometry) (isPrepared : Bool)
    (bnRule : BoundaryNodeRule) : RelateGeometryState :=
  { geom := input
    m_isPrepared := isPrepared
    geomEnv := envelopeOf input
    boundaryNodeRule := bnRule
    geomDim := dimensionOf input
    isLineZeroLen := isZeroLengthGeom input
    isGeomEmpty := input.isEmpty
    hasPoints := false
    hasLines := false
    hasAreas := false
    locator := none
    uniquePoints := [] }

/-- The `RelateGeometry` constructor: member initialization followed by
`analyzeDimensions` (RelateGeometry.cpp:47-57). -/
def mkRelateGeometry (input : Geometry) (isPrepared : Bool) (bnRule : BoundaryNodeRule) :
    RelateGeometryState :=
  analyzeDimensions (initRelateGeometry input isPrepared bnRule)

/-- `RelateGeometry::getDimensionReal` (RelateGeometry.cpp:192-205). -/
def getDimensionReal (s : RelateGeometryState) : Int :=
  if s.isGeomEmpty then -1
  else if s.geomDim = 1 ∧ s.isLineZeroLen then 0
  else if s.hasAreas then 2
  else if s.hasLines then 1
  else 0

/-- `RelateGeometry::getLocator` (RelateGeometry.cpp:214-221): builds the
point locator on first demand and caches it. -/
def getLocator (s : RelateGeometryState) : RelatePointLocator × RelateGeometryState :=
  match s.locator with
  | some l => (l, s)
  | none =>
      let l := mkRelatePointLocator s.geom s.m_isPrepared s.boundaryNodeRule
      (l, { s with locator := some l })

/-- Modelled from the spec: `RelateGeometry::createUniquePoints`
(RelateGeometry.cpp:320-329) delegates to
`ComponentCoordinateExtracter::getCoordinates`, whose body is not under
src/; spec §3 calls the cache "a lazily-built unique-points set", collecting
the distinct 2D coordinates of the geometry (only called on P geometries). -/
def createUniquePoints (g : Geometry) : List CoordinateXY :=
  (allCoords g).dedup

/-- `RelateGeometry::getUniquePoints` (RelateGeometry.cpp:309-317): builds
the unique-point set on first demand (the emptiness of the cached set is the
"unbuilt" test) and returns the cached set. -/
def getUniquePoints (s : RelateGeometryState) :
    List CoordinateXY × RelateGeometryState :=
  if s.uniquePoints.isEmpty then
    let up := createUniquePoints s.geom
    (up, { s with uniquePoints := up })
  else
    (s.uniquePoints, s)

/-- `RelateSegmentString` (spec §3): a coordinate sequence tagged with its
source flag, element id, ring id and parent-polygon back-pointer. -/
structure RelateSegmentString where
  isA : Bool
  elementId : Nat
  ringId : Int
  parentPoly : Option Geometry
  pts : List CoordinateXY
deriving Repr

/-- Modelled from the spec: `RelateSegmentString::createLine`
(RelateSegmentString.cpp is not under src/).  Spec §3/§4.5: a line segment
string carries ring id -1 and no parent polygon. -/
def RelateSegmentString.createLine (cs : List CoordinateXY) (isA : Bool)
    (elementId : Nat) : RelateSegmentString :=
  { isA := isA, elementId := elementId, ringId := -1, parentPoly := none, pts := cs }

/-- Modelled from the spec: `RelateSegmentString::createRing`
(RelateSegmentString.cpp is not under src/).  Spec §3/§4.5: a ring segment
string carries its ring id (0 = shell, i = i-th hole) and the parent polygon
back-pointer. -/
def RelateSegmentString.createRing (cs : List CoordinateXY) (isA : Bool)
    (elementId : Nat) (ringId : Int) (parentPoly : Geometry) : RelateSegmentString :=
  { isA := isA, elementId := elementId, ringId := ringId,
    parentPoly := some parentPoly, pts := cs }

/-- `RelateGeometry::extractRingToSegmentString` (RelateGeometry.cpp
424-439): an empty ring or a ring whose envelope misses the filter produces
no segment string. -/
def extractRing (isA : Bool) (ring : List CoordinateXY) (ringId : Int)
    (env : Option Env) (parentPoly : Geometry) (elementId : Nat) :
    Option RelateSegmentString :=
  if ring.isEmpty then none
  else
    match env with
    | some e =>
        if e.intersects (envOfCoords ring) = false then none
        else some (RelateSegmentString.createRing ring isA elementId ringId parentPoly)
    | none => some (RelateSegmentString.createRing ring isA elementId ringId parentPoly)

/-- The hole loop of `RelateGeometry::extractSegmentStringsFromAtomic`
(RelateGeometry.cpp:417-419): the hole at position `i` (counting from 1)
receives ring id `i`. -/
def extractHoles (isA : Bool) (env : Option Env) (parentPoly : Geometry)
    (elementId : Nat) : List (List CoordinateXY) → Nat → List RelateSegmentString
  | [], _ => []
  | h :: rest, i =>
      (extractRing isA h (Int.ofNat i) env parentPoly elementId).toList
        ++ extractHoles isA env parentPoly elementId rest (i + 1)

/-- The parent-polygon choice of `extractSegmentStringsFromAtomic`
(RelateGeometry.cpp:411-415): the enclosing MultiPolygon when one was
recorded, the polygon itself otherwise. -/
def parentPolyOf (parentPolygonal : Option Geometry) (shell : List CoordinateXY)
    (holes : List (List CoordinateXY)) : Geometry :=
  match parentPolygonal with
  | some mp => mp
  | none => Geometry.polygon shell holes

/-- The `doExtract` test of `extractSegmentStringsFromAtomic`
(RelateGeometry.cpp:398): true when no filter is given or the filter
intersects the element envelope. -/
def doExtractOf (env : Option Env) (g : Geometry) : Bool :=
  match env with
  | none => true
  | some e => e.intersects (envelopeOf g)

/-- `RelateGeometry::extractSegmentStringsFromAtomic` (RelateGeometry.cpp
388-421): skip an empty element or one whose envelope misses the filter;
otherwise bump the element counter; a LINESTRING yields one line segment
string, a POLYGON yields its shell (ring id 0) and holes (ring id i), with
the parent polygon being the enclosing MultiPolygon when present and the
polygon itself otherwise.  Other types yield nothing.  Returns the produced
segment strings and the new element counter. -/
def extractAtomic (isA : Bool) (env : Option Env) (parentPolygonal : Option Geometry)
    (g : Geometry) (elementId : Nat) : List RelateSegmentString × Nat :=
  if g.isEmpty then ([], elementId)
  else if doExtractOf env g = false then ([], elementId)
  else
    match g with
    | .lineString pts =>
        ([RelateSegmentString.createLine pts isA (elementId + 1)], elementId + 1)
    | .polygon shell holes =>
        ((extractRing isA shell 0 env (parentPolyOf parentPolygonal shell holes)
            (elementId + 1)).toList
          ++ extractHoles isA env (parentPolyOf parentPolygonal shell holes)
              (elementId + 1) holes 1,
         elementId + 1)
    | _ => ([], elementId + 1)

mutual

/-- One component step of the private
`RelateGeometry::extractSegmentStrings` (RelateGeometry.cpp:377-383): a
component of exact type GEOMETRYCOLLECTION is recursed into (its own
components then see a null parentPolygonal, since a GeometryCollection is
not a MultiPolygon); any other component is extracted as atomic with the
given parentPolygonal. -/
def extractStep (isA : Bool) (env : Option Env) (parentPolygonal : Option Geometry)
    (g : Geometry) (elementId : Nat) : List RelateSegmentString × Nat :=
  match g with
  | .geometryCollection gs2 => extractIter isA env none gs2 elementId
  | _ => extractAtomic isA env parentPolygonal g elementId

/-- The component loop of the private
`RelateGeometry::extractSegmentStrings` (RelateGeometry.cpp:376-384),
threading the element counter and accumulating segment strings in order. -/
def extractIter (isA : Bool) (env : Option Env) (parentPolygonal : Option Geometry) :
    List Geometry → Nat → List RelateSegmentString × Nat
  | [], elementId => ([], elementId)
  | g :: rest, elementId =>
      let r1 := extractStep isA env parentPolygonal g elementId
      let r2 := extractIter isA env parentPolygonal rest r1.2
      (r1.1 ++ r2.1, r2.2)

end

/-- `Geometry::getNumGeometries` / `getGeometryN` as a component list
(spec §6): a collection exposes its components, an atomic geometry exposes
itself as its single component. -/
def components : Geometry → List Geometry
  | .multiPoint gs => gs
  | .multiLineString gs => gs
  | .multiPolygon gs => gs
  | .geometryCollection gs => gs
  | g => [g]

/-- Public `RelateGeometry::extractSegmentStrings` (RelateGeometry.cpp
354-385): walks the components of the input, recording the input itself as
parentPolygonal when it is a MultiPolygon; threads the element counter. -/
def extractSegmentStrings (isA : Bool) (env : Option Env) (g : Geometry)
    (elementId : Nat) : List RelateSegmentString × Nat :=
  let parentPolygonal : Option Geometry :=
    match g with
    | .multiPolygon gs => some (Geometry.multiPolygon gs)
    | _ => none
  extractIter isA env parentPolygonal (components g) elementId

/-!  WKB writer (source/io/WKBWriter.cpp).  The output stream is modelled at
the granularity the writer itself uses: one item per `write` call — a single
byte for the byte-order marker, a 4-byte integer for `writeInt`, an 8-byte
double for each ordinate written by `writeCoordinate`. -/

/-- One item of the WKB output stream: a byte-order byte, a 4-byte int, or
an 8-byte double ordinate. -/
inductive WKBItem where
  | byte (b : Int)
  | int4 (v : Int)
  | double (v : Int)
deriving DecidableEq, Repr

/-- A coordinate sequence as the WKB writer sees it: a dimension (2, 3 or 4,
spec §6 `coordinateDimension()`) and per-coordinate (x, y, z) ordinates. -/
structure CoordSeq where
  dim : Nat
  seq : List (Int × Int × Int)
deriving DecidableEq, Repr

/-- `CoordinateSequence::getSize`. -/
def CoordSeq.getSize (cs : CoordSeq) : Nat := cs.seq.length

/-- The coordinate at an index (out-of-range reads yield the origin; the
writer only probes indices below `getSize`). -/
def CoordSeq.getAt (cs : CoordSeq) (i : Nat) : Int × Int × Int :=
  cs.seq.getD i (0, 0, 0)

/-- `CoordinateSequence::getX`. -/
def CoordSeq.getX (cs : CoordSeq) (i : Nat) : Int := (cs.getAt i).1

/-- `CoordinateSequence::getY`. -/
def CoordSeq.getY (cs : CoordSeq) (i : Nat) : Int := (cs.getAt i).2.1

/-- `CoordinateSequence::getZ`. -/
def CoordSeq.getZ (cs : CoordSeq) (i : Nat) : Int := (cs.getAt i).2.2

/-- The ordinate index `CoordinateSequence::X` (the enum value the source
passes at WKBWriter.cpp:220). -/
def ordinateX : Nat := 0

/-- The ordinate index `CoordinateSequence::Y`. -/
def ordinateY : Nat := 1

/-- The ordinate index `CoordinateSequence::Z`. -/
def ordinateZ : Nat := 2

/-- `CoordinateSequence::getOrdinate(idx, ordinateIndex)`. -/
def CoordSeq.getOrdinate (cs : CoordSeq) (i : Nat) (ordinateIndex : Nat) : Int :=
  if ordinateIndex = ordinateX then cs.getX i
  else if ordinateIndex = ordinateY then cs.getY i
  else if ordinateIndex = ordinateZ then cs.getZ i
  else 0

/-- `WKBWriter::writeCoordinate` (WKBWriter.cpp:204-224): emits the X and Y
ordinates as 8-byte doubles and, when `is3d`, a third 8-byte double fetched
with ordinate index `CoordinateSequence::X` (the index the source passes at
line 220). -/
def writeCoordinateItems (cs : CoordSeq) (idx : Nat) (is3d : Bool) : List WKBItem :=
  [WKBItem.double (cs.getX idx), WKBItem.double (cs.getY idx)]
    ++ (if is3d then [WKBItem.double (cs.getOrdinate idx ordinateX)] else [])

/-- `WKBWriter::writeCoordinateSequence` (WKBWriter.cpp:192-202): decides
`is3d` from the sequence dimension and the writer's output dimension, emits
the size when `sized`, then each coordinate. -/
def writeCoordinateSequenceItems (outputDimension : Nat) (cs : CoordSeq)
    (sized : Bool) : List WKBItem :=
  let is3d := decide (2 < cs.dim) && decide (2 < outputDimension)
  (if sized then [WKBItem.int4 (Int.ofNat cs.getSize)] else [])
    ++ (List.range cs.getSize).flatMap (fun i => writeCoordinateItems cs i is3d)

/-- Modelled from the spec: the WKB geometry type codes of WKBConstants.h
(not under src/; standard well-known-binary codes). -/
def wkbPoint : Int := 1

/-- WKB type code for LineString. -/
def wkbLineString : Int := 2

/-- WKB type code for Polygon. -/
def wkbPolygon : Int := 3

/-- WKB type code for MultiPoint. -/
def wkbMultiPoint : Int := 4

/-- WKB type code for MultiLineString. -/
def wkbMultiLineString : Int := 5

/-- WKB type code for MultiPolygon. -/
def wkbMultiPolygon : Int := 6

/-- WKB type code for GeometryCollection. -/
def wkbGeometryCollection : Int := 7

/-- `WKBWriter::writeGeometryType` (WKBWriter.cpp:175-182): the type code,
with the high bit set when the output dimension is 3. -/
def writeGeometryTypeItem (outputDimension : Nat) (typeId : Int) : WKBItem :=
  WKBItem.int4 (typeId + (if outputDimension = 3 then 2147483648 else 0))

/-- The header every `write*` member emits: the byte-order marker
(`writeByteOrder`) followed by the flagged geometry type. -/
def wkbHeader (outputDimension : Nat) (byteOrder : Int) (typeId : Int) : List WKBItem :=
  [WKBItem.byte byteOrder, writeGeometryTypeItem outputDimension typeId]

/-- A geometry's coordinate list as the 2D coordinate sequence the writer
reads through `getCoordinatesRO` (the embedded geometries carry 2D
coordinates, so the sequence dimension is 2). -/
def coordSeqOf (pts : List CoordinateXY) : CoordSeq :=
  { dim := 2, seq := pts.map (fun p => (p.x, p.y, 0)) }

mutual

/-- `WKBWriter::write` (WKBWriter.cpp:64-96) together with the `write*`
members it dispatches to: `writePoint` (98-110, throws on an empty point),
`writeLineString` (112-120, also used for LINEARRING), `writePolygon`
(122-147), and `writeGeometryCollection` (149-166, used for the three multi
types and GEOMETRYCOLLECTION).  The result is the emitted item stream, or
the thrown `IllegalArgumentException` message. -/
def wkbWriteGeom (outputDimension : Nat) (byteOrder : Int) :
    Geometry → Except String (List WKBItem)
  | .point none => .error "Empty Points cannot be represented in WKB"
  | .point (some c) =>
      .ok (wkbHeader outputDimension byteOrder wkbPoint
        ++ writeCoordinateSequenceItems outputDimension (coordSeqOf [c]) false)
  | .lineString pts =>
      .ok (wkbHeader outputDimension byteOrder wkbLineString
        ++ writeCoordinateSequenceItems outputDimension (coordSeqOf pts) true)
  | .linearRing pts =>
      .ok (wkbHeader outputDimension byteOrder wkbLineString
        ++ writeCoordinateSequenceItems outputDimension (coordSeqOf pts) true)
  | .polygon shell holes =>
      .ok (wkbHeader outputDimension byteOrder wkbPolygon
        ++ [WKBItem.int4 (Int.ofNat (holes.length + 1))]
        ++ writeCoordinateSequenceItems outputDimension (coordSeqOf shell) true
        ++ holes.flatMap (fun h =>
             writeCoordinateSequenceItems outputDimension (coordSeqOf h) true))
  | .multiPoint gs => wkbWriteColl outputDimension byteOrder wkbMultiPoint gs
  | .multiLineString gs => wkbWriteColl outputDimension byteOrder wkbMultiLineString gs
  | .multiPolygon gs => wkbWriteColl outputDimension byteOrder wkbMultiPolygon gs
  | .geometryCollection gs =>
      wkbWriteColl outputDimension byteOrder wkbGeometryCollection gs

/-- `WKBWriter::writeGeometryCollection` (WKBWriter.cpp:149-166): header,
component count, then each component through `write`; an exception thrown by
a component propagates. -/
def wkbWriteColl (outputDimension : Nat) (byteOrder : Int) (typeId : Int)
    (gs : List Geometry) : Except String (List WKBItem) := do
  let body ← wkbWriteList outputDimension byteOrder gs
  return wkbHeader outputDimension byteOrder typeId
    ++ [WKBItem.int4 (Int.ofNat gs.length)] ++ body

/-- The component loop of `writeGeometryCollection`. -/
def wkbWriteList (outputDimension : Nat) (byteOrder : Int) :
    List Geometry → Except String (List WKBItem)
  | [] => .ok []
  | g :: rest => do
      let a ← wkbWriteGeom outputDimension byteOrder g
      let b ← wkbWriteList outputDimension byteOrder rest
      return a ++ b

end

/-- The `WKBWriter` constructor (WKBWriter.cpp:44-49): throws
`IllegalArgumentException` unless the output dimension is 2 or 3; otherwise
yields the writer configuration. -/
def mkWKBWriter (dims : Int) (bo : Int) : Except String (Int × Int) :=
  if dims < 2 ∨ dims > 3 then .error "WKB output dimension must be 2 or 3"
  else .ok (dims, bo)

mutual

/-- A geometry contains an empty `Point` component (directly or inside any
collection). -/
def hasEmptyPoint : Geometry → Bool
  | .point none => true
  | .point (some _) => false
  | .lineString _ => false
  | .linearRing _ => false
  | .polygon _ _ => false
  | .multiPoint gs => hasEmptyPointList gs
  | .multiLineString gs => hasEmptyPointList gs
  | .multiPolygon gs => hasEmptyPointList gs
  | .geometryCollection gs => hasEmptyPointList gs

/-- Some geometry of the list contains an empty point. -/
def hasEmptyPointList : List Geometry → Bool
  | [] => false
  | g :: rest => hasEmptyPoint g || hasEmptyPointList rest

end

/-!  Specification-side helper definitions used to state the claims about
`analyzeDimensions` (spec §4.5). -/

/-- The non-empty simple components of a geometry. -/
def nonEmptyLeaves (g : Geometry) : List Geometry :=
  (getAllGeometries g).filter (fun e => !e.isEmpty)

/-- The input contains a non-empty simple component of the given dimension. -/
def specHasDim (g : Geometry) (d : Int) : Bool :=
  (nonEmptyLeaves g).any (fun e => dimensionOf e == d)

/-- Maximum of a base dimension and the dimensions of the non-empty simple
components. -/
def specGeomDim (g : Geometry) (base : Int) : Int :=
  (nonEmptyLeaves g).foldl (fun m e => max m (dimensionOf e)) base

/-- The geometry is a `point`. -/
def isPointG : Geometry → Bool
  | .point _ => true
  | _ => false

/-- The geometry is a `lineString`. -/
def isLineStringG : Geometry → Bool
  | .lineString _ => true
  | _ => false

/-- The geometry is a `polygon`. -/
def isPolygonG : Geometry → Bool
  | .polygon _ _ => true
  | _ => false

/-- Every geometry of the list is a `point`. -/
def allPointG : List Geometry → Bool
  | [] => true
  | g :: rest => isPointG g && allPointG rest

/-- Every geometry of the list is a `lineString`. -/
def allLineStringG : List Geometry → Bool
  | [] => true
  | g :: rest => isLineStringG g && allLineStringG rest

/-- Every geometry of the list is a `polygon`. -/
def allPolygonG : List Geometry → Bool
  | [] => true
  | g :: rest => isPolygonG g && allPolygonG rest

mutual

/-- The geometry is built from `Point`, `LineString` and `Polygon` atoms:
multi-geometries hold components of their advertised type and collections
hold well-formed components; no `LinearRing` appears as a component. -/
def wfComponents : Geometry → Bool
  | .point _ => true
  | .lineString _ => true
  | .linearRing _ => false
  | .polygon _ _ => true
  | .multiPoint gs => allPointG gs
  | .multiLineString gs => allLineStringG gs
  | .multiPolygon gs => allPolygonG gs
  | .geometryCollection gs => allWfComponents gs

/-- Every geometry of the list has well-formed components. -/
def allWfComponents : List Geometry → Bool
  | [] => true
  | g :: rest => wfComponents g && allWfComponents rest

end

/-!  Helper lemmas. -/

/-- `analyzeElem` only touches the dimension flags and `geomDim`. -/
theorem analyzeElem_preserves (s : RelateGeometryState) (e : Geometry) :
    (analyzeElem s e).geom = s.geom ∧
    (analyzeElem s e).m_isPrepared = s.m_isPrepared ∧
    (analyzeElem s e).boundaryNodeRule = s.boundaryNodeRule ∧
    (analyzeElem s e).isGeomEmpty = s.isGeomEmpty ∧
    (analyzeElem s e).isLineZeroLen = s.isLineZeroLen ∧
    (analyzeElem s e).locator = s.locator ∧
    (analyzeElem s e).uniquePoints = s.uniquePoints := by
  unfold analyzeElem
  split
  · exact ⟨rfl, rfl, rfl, rfl, rfl, rfl, rfl⟩
  · split <;> split <;> split <;> exact ⟨rfl, rfl, rfl, rfl, rfl, rfl, rfl⟩

/-- The `analyzeElem` fold only touches the dimension flags and `geomDim`. -/
theorem foldl_analyzeElem_preserves (l : List Geometry) :
    ∀ s : RelateGeometryState,
      (l.foldl analyzeElem s).geom = s.geom ∧
      (l.foldl analyzeElem s).m_isPrepared = s.m_isPrepared ∧
      (l.foldl analyzeElem s).boundaryNodeRule = s.boundaryNodeRule ∧
      (l.foldl analyzeElem s).isGeomEmpty = s.isGeomEmpty ∧
      (l.foldl analyzeElem s).isLineZeroLen = s.isLineZeroLen ∧
      (l.foldl analyzeElem s).locator = s.locator ∧
      (l.foldl analyzeElem s).uniquePoints = s.uniquePoints := by
  induction l with
  | nil => intro s; exact ⟨rfl, rfl, rfl, rfl, rfl, rfl, rfl⟩
  | cons e rest ih =>
      intro s
      have h1 := analyzeElem_preserves s e
      have h2 := ih (analyzeElem s e)
      simp only [List.foldl_cons]
      exact ⟨h2.1.trans h1.1, h2.2.1.trans h1.2.1, h2.2.2.1.trans h1.2.2.1,
        h2.2.2.2.1.trans h1.2.2.2.1, h2.2.2.2.2.1.trans h1.2.2.2.2.1,
        h2.2.2.2.2.2.1.trans h1.2.2.2.2.2.1, h2.2.2.2.2.2.2.trans h1.2.2.2.2.2.2⟩

/-- `analyzeDimensions` only touches the dimension flags and `geomDim`. -/
theorem analyzeDimensions_preserves (s : RelateGeometryState) :
    (analyzeDimensions s).geom = s.geom ∧
    (analyzeDimensions s).m_isPrepared = s.m_isPrepared ∧
    (analyzeDimensions s).boundaryNodeRule = s.boundaryNodeRule ∧
    (analyzeDimensions s).isGeomEmpty = s.isGeomEmpty ∧
    (analyzeDimensions s).isLineZeroLen = s.isLineZeroLen ∧
    (analyzeDimensions s).locator = s.locator ∧
    (analyzeDimensions s).uniquePoints = s.uniquePoints := by
  unfold analyzeDimensions
  split
  · exact ⟨rfl, rfl, rfl, rfl, rfl, rfl, rfl⟩
  · split
    · exact ⟨rfl, rfl, rfl, rfl, rfl, rfl, rfl⟩
    · split
      · exact ⟨rfl, rfl, rfl, rfl, rfl, rfl, rfl⟩
      · split
        · exact ⟨rfl, rfl, rfl, rfl, rfl, rfl, rfl⟩
        · exact foldl_analyzeElem_preserves _ _

/-- The constructed state records the emptiness of the input. -/
theorem mkRelateGeometry_isGeomEmpty (g : Geometry) (prep : Bool) (r : BoundaryNodeRule) :
    (mkRelateGeometry g prep r).isGeomEmpty = g.isEmpty :=
  (analyzeDimensions_preserves _).2.2.2.1

/-- The constructed state records the zero-length-line flag of the input. -/
theorem mkRelateGeometry_isLineZeroLen (g : Geometry) (prep : Bool) (r : BoundaryNodeRule) :
    (mkRelateGeometry g prep r).isLineZeroLen = isZeroLengthGeom g :=
  (analyzeDimensions_preserves _).2.2.2.2.1

/-!  Claim theorems. -/

/-- Claim C1.  For every LineString with at least 2 points,
`RelateGeometry::isZeroLength(line)` returns true iff every vertex of the
line is 2D-equal to the first vertex (the check iterates all vertices); a
LineString with fewer than 2 points is reported zero-length. -/
theorem isZeroLengthLine_spec (p0 : CoordinateXY) (rest : List CoordinateXY)
    (hlen : 2 ≤ (p0 :: rest).length) :
    (isZeroLengthLine (p0 :: rest) = true ↔
      ∀ p ∈ p0 :: rest, p0.equals2D p = true) ∧
    (∀ line : List CoordinateXY, line.length < 2 → isZeroLengthLine line = true) := by
  constructor
  · have hall : isZeroLengthLine (p0 :: rest) = rest.all (fun pi => p0.equals2D pi) := by
      unfold isZeroLengthLine
      rw [if_pos hlen]
    rw [hall]
    simp only [List.all_eq_true, List.mem_cons, forall_eq_or_imp]
    constructor
    · intro h
      refine ⟨?_, h⟩
      simp [CoordinateXY.equals2D]
    · intro h
      exact h.2
  · intro line hl
    unfold isZeroLengthLine
    rw [if_neg (by omega)]

/-- Witness for C1: a two-point zero-length check at a concrete line. -/
theorem isZeroLengthLine_spec_witness :
    (isZeroLengthLine [⟨0, 0⟩, ⟨1, 0⟩] = true ↔
      ∀ p ∈ [(⟨0, 0⟩ : CoordinateXY), ⟨1, 0⟩],
        CoordinateXY.equals2D ⟨0, 0⟩ p = true) :=
  (isZeroLengthLine_spec ⟨0, 0⟩ [⟨1, 0⟩] (by decide)).1

/-- Claim C2.  For a LineString input (not a collection), the geometry-level
`RelateGeometry::isZeroLength(const Geometry*)` agrees with the
LineString-specific `isZeroLength(const LineString*)` applied directly. -/
theorem isZeroLengthGeom_lineString (pts : List CoordinateXY) :
    isZeroLengthGeom (Geometry.lineString pts) = isZeroLengthLine pts := by
  simp [isZeroLengthGeom, getAllGeometries]

/-- Claim C3.  `getDimensionReal` returns FALSE (-1) on an empty input,
collapses a zero-length line (computed dimension L) to P (0), and otherwise
returns A / L / P according to the area / line flags. -/
theorem getDimensionReal_spec (g : Geometry) (prep : Bool) (r : BoundaryNodeRule) :
    (g.isEmpty = true → getDimensionReal (mkRelateGeometry g prep r) = -1) ∧
    (g.isEmpty = false →
      (mkRelateGeometry g prep r).geomDim = 1 →
      (mkRelateGeometry g prep r).isLineZeroLen = true →
      getDimensionReal (mkRelateGeometry g prep r) = 0) ∧
    (g.isEmpty = false →
      ¬ ((mkRelateGeometry g prep r).geomDim = 1 ∧
         (mkRelateGeometry g prep r).isLineZeroLen = true) →
      getDimensionReal (mkRelateGeometry g prep r) =
        (if (mkRelateGeometry g prep r).hasAreas then 2
         else if (mkRelateGeometry g prep r).hasLines then 1
         else 0)) := by
  have hemp := mkRelateGeometry_isGeomEmpty g prep r
  refine ⟨?_, ?_, ?_⟩
  · intro h
    rw [getDimensionReal, if_pos (hemp.trans h)]
  · intro h hdim hzero
    rw [getDimensionReal, if_neg (by rw [hemp, h]; simp), if_pos ⟨hdim, hzero⟩]
  · intro h hnot
    rw [getDimensionReal, if_neg (by rw [hemp, h]; simp), if_neg hnot]

/-- Witness for C3: a concrete zero-length line has real dimension P, and a
concrete empty geometry has real dimension FALSE. -/
theorem getDimensionReal_spec_witness :
    getDimensionReal
      (mkRelateGeometry (Geometry.lineString [⟨3, 4⟩, ⟨3, 4⟩, ⟨3, 4⟩]) false .Mod2) = 0 :=
  (getDimensionReal_spec (Geometry.lineString [⟨3, 4⟩, ⟨3, 4⟩, ⟨3, 4⟩]) false .Mod2).2.1
    (by decide) (by decide) (by decide)

/-- Claim C8.  The point locator and the unique-points set are lazy caches:
the constructor leaves both unbuilt; a second `getLocator` returns the very
locator stored by the first call and leaves the state unchanged; a second
`getUniquePoints` returns an equal set and leaves the state unchanged. -/
theorem lazyCaches_spec :
    (∀ (g : Geometry) (prep : Bool) (r : BoundaryNodeRule),
      (mkRelateGeometry g prep r).locator = none ∧
      (mkRelateGeometry g prep r).uniquePoints = []) ∧
    (∀ s : RelateGeometryState,
      (getLocator s).2.locator = some (getLocator s).1 ∧
      getLocator ((getLocator s).2) = ((getLocator s).1, (getLocator s).2)) ∧
    (∀ s : RelateGeometryState,
      getUniquePoints ((getUniquePoints s).2) =
        ((getUniquePoints s).1, (getUniquePoints s).2)) := by
  refine ⟨?_, ?_, ?_⟩
  · intro g prep r
    exact ⟨(analyzeDimensions_preserves _).2.2.2.2.2.1,
      (analyzeDimensions_preserves _).2.2.2.2.2.2⟩
  · intro s
    cases h : s.locator with
    | some l => simp [getLocator, h]
    | none => simp [getLocator, h]
  · intro s
    by_cases h : s.uniquePoints.isEmpty = true
    · simp only [getUniquePoints, if_pos h]
      by_cases h2 : (createUniquePoints s.geom).isEmpty = true
      · simp [if_pos h2]
      · simp [if_neg h2]
    · simp [getUniquePoints, if_neg h, h]

/-- An `Except` value carries a result rather than a thrown exception. -/
def exceptIsOk {ε α : Type} : Except ε α → Bool
  | .ok _ => true
  | .error _ => false

mutual

/-- The writer succeeds on a geometry exactly when it contains no empty
point. -/
theorem wkbWriteGeom_ok (outD : Nat) (bo : Int) :
    ∀ g : Geometry, exceptIsOk (wkbWriteGeom outD bo g) = !hasEmptyPoint g
  | .point none => by simp [wkbWriteGeom, hasEmptyPoint, exceptIsOk]
  | .point (some c) => by simp [wkbWriteGeom, hasEmptyPoint, exceptIsOk]
  | .lineString pts => by simp [wkbWriteGeom, hasEmptyPoint, exceptIsOk]
  | .linearRing pts => by simp [wkbWriteGeom, hasEmptyPoint, exceptIsOk]
  | .polygon shell holes => by simp [wkbWriteGeom, hasEmptyPoint, exceptIsOk]
  | .multiPoint gs => by
      have h := wkbWriteList_ok outD bo gs
      simp only [wkbWriteGeom, wkbWriteColl, hasEmptyPoint]
      cases hw : wkbWriteList outD bo gs with
      | ok a => rw [hw] at h; simpa [exceptIsOk] using h
      | error e => rw [hw] at h; simpa [exceptIsOk] using h
  | .multiLineString gs => by
      have h := wkbWriteList_ok outD bo gs
      simp only [wkbWriteGeom, wkbWriteColl, hasEmptyPoint]
      cases hw : wkbWriteList outD bo gs with
      | ok a => rw [hw] at h; simpa [exceptIsOk] using h
      | error e => rw [hw] at h; simpa [exceptIsOk] using h
  | .multiPolygon gs => by
      have h := wkbWriteList_ok outD bo gs
      simp only [wkbWriteGeom, wkbWriteColl, hasEmptyPoint]
      cases hw : wkbWriteList outD bo gs with
      | ok a => rw [hw] at h; simpa [exceptIsOk] using h
      | error e => rw [hw] at h; simpa [exceptIsOk] using h
  | .geometryCollection gs => by
      have h := wkbWriteList_ok outD bo gs
      simp only [wkbWriteGeom, wkbWriteColl, hasEmptyPoint]
      cases hw : wkbWriteList outD bo gs with
      | ok a => rw [hw] at h; simpa [exceptIsOk] using h
      | error e => rw [hw] at h; simpa [exceptIsOk] using h

/-- The component loop succeeds exactly when no component contains an empty
point. -/
theorem wkbWriteList_ok (outD : Nat) (bo : Int) :
    ∀ gs : List Geometry,
      exceptIsOk (wkbWriteList outD bo gs) = !hasEmptyPointList gs
  | [] => by simp [wkbWriteList, hasEmptyPointList, exceptIsOk]
  | g :: rest => by
      have h1 := wkbWriteGeom_ok outD bo g
      have h2 := wkbWriteList_ok outD bo rest
      simp only [wkbWriteList, hasEmptyPointList]
      cases hg : wkbWriteGeom outD bo g with
      | error e =>
          rw [hg] at h1
          simp only [exceptIsOk] at h1
          have hge : hasEmptyPoint g = true := by simpa using h1.symm
          rw [hge]
          rfl
      | ok a =>
          rw [hg] at h1
          simp only [exceptIsOk] at h1
          have hge : hasEmptyPoint g = false := by simpa using h1.symm
          cases hr : wkbWriteList outD bo rest with
          | error e2 =>
              rw [hr] at h2
              simp only [exceptIsOk] at h2
              have hre : hasEmptyPointList rest = true := by simpa using h2.symm
              rw [hge, hre]
              rfl
          | ok b =>
              rw [hr] at h2
              simp only [exceptIsOk] at h2
              have hre : hasEmptyPointList rest = false := by simpa using h2.symm
              rw [hge, hre]
              rfl

end

/-- Claim C10.  `WKBWriter::write` throws `IllegalArgumentException` exactly
when the geometry contains an empty Point (also inside MultiPoints and
collections); empty LineStrings, Polygons and empty collections serialize
without error; the constructor throws exactly when the requested output
dimension is outside 2..3. -/
theorem wkbWriter_throw_spec :
    (∀ (outD : Nat) (bo : Int) (g : Geometry),
      exceptIsOk (wkbWriteGeom outD bo g) = !hasEmptyPoint g) ∧
    (∀ dims bo : Int,
      exceptIsOk (mkWKBWriter dims bo) = (decide (2 ≤ dims) && decide (dims ≤ 3))) := by
  refine ⟨fun outD bo g => wkbWriteGeom_ok outD bo g, ?_⟩
  intro dims bo
  by_cases h : dims < 2 ∨ dims > 3
  · unfold mkWKBWriter
    rw [if_pos h]
    show false = _
    rcases h with h | h
    · rw [decide_eq_false (by omega : ¬ (2 ≤ dims))]
      simp
    · rw [decide_eq_false (by omega : ¬ (dims ≤ 3))]
      simp
  · unfold mkWKBWriter
    rw [if_neg h]
    show true = _
    rw [decide_eq_true (by omega : 2 ≤ dims), decide_eq_true (by omega : dims ≤ 3)]
    rfl

/-- Claim C9.  With outputDimension 3 and a coordinate sequence of dimension
greater than 2, the writer emits three 8-byte ordinates per coordinate and
the third emitted value equals the X ordinate (the source fetches ordinate
index `CoordinateSequence::X` at WKBWriter.cpp:220); with outputDimension 2
it emits exactly X then Y. -/
theorem writeCoordinate_thirdIsX (cs : CoordSeq) (h3 : 2 < cs.dim) :
    (writeCoordinateSequenceItems 3 cs false =
      (List.range cs.getSize).flatMap (fun j =>
        [WKBItem.double (cs.getX j), WKBItem.double (cs.getY j),
         WKBItem.double (cs.getX j)])) ∧
    (∀ cs2 : CoordSeq,
      writeCoordinateSequenceItems 2 cs2 false =
        (List.range cs2.getSize).flatMap (fun j =>
          [WKBItem.double (cs2.getX j), WKBItem.double (cs2.getY j)])) := by
  constructor
  · simp only [writeCoordinateSequenceItems, writeCoordinateItems,
      CoordSeq.getOrdinate, ordinateX]
    rw [decide_eq_true h3]
    simp
  · intro cs2
    simp [writeCoordinateSequenceItems, writeCoordinateItems]

/-- Witness for C9: a one-coordinate 3D sequence written at output
dimension 3 emits (x, y, x). -/
theorem writeCoordinate_thirdIsX_witness :
    writeCoordinateSequenceItems 3 ⟨3, [(7, 8, 9)]⟩ false =
      (List.range (CoordSeq.getSize ⟨3, [(7, 8, 9)]⟩)).flatMap (fun j =>
        [WKBItem.double (CoordSeq.getX ⟨3, [(7, 8, 9)]⟩ j),
         WKBItem.double (CoordSeq.getY ⟨3, [(7, 8, 9)]⟩ j),
         WKBItem.double (CoordSeq.getX ⟨3, [(7, 8, 9)]⟩ j)]) :=
  (writeCoordinate_thirdIsX ⟨3, [(7, 8, 9)]⟩ (by decide)).1

/-!  Lemmas about segment-string extraction. -/

/-- `extractRing` without a filter keeps every non-empty ring. -/
theorem extractRing_none_eq (isA : Bool) (ring : List CoordinateXY) (rid : Int)
    (P : Geometry) (eid : Nat) :
    extractRing isA ring rid none P eid =
      if ring.isEmpty then none
      else some (RelateSegmentString.createRing ring isA eid rid P) := by
  unfold extractRing
  split <;> rfl

/-- `extractRing` with a filter keeps a non-empty ring iff the filter
intersects the ring envelope. -/
theorem extractRing_some_eq (isA : Bool) (ring : List CoordinateXY) (rid : Int)
    (e : Env) (P : Geometry) (eid : Nat) :
    extractRing isA ring rid (some e) P eid =
      if ring.isEmpty then none
      else if e.intersects (envOfCoords ring) = false then none
      else some (RelateSegmentString.createRing ring isA eid rid P) := by
  unfold extractRing
  split <;> rfl

/-- Any segment string produced by `extractRing` is the created ring string,
the ring is non-empty, and a present filter intersects the ring envelope. -/
theorem extractRing_shape (isA : Bool) (ring : List CoordinateXY) (rid : Int)
    (env : Option Env) (P : Geometry) (eid : Nat) (s : RelateSegmentString)
    (h : extractRing isA ring rid env P eid = some s) :
    s = RelateSegmentString.createRing ring isA eid rid P ∧
    ring ≠ [] ∧
    (∀ e, env = some e → e.intersects (envOfCoords ring) = true) := by
  cases env with
  | none =>
      rw [extractRing_none_eq] at h
      split at h
      · exact absurd h (by simp)
      · refine ⟨by injection h with h2; exact h2.symm, ?_, by intro e he; cases he⟩
        intro hnil
        simp [hnil] at *
  | some e =>
      rw [extractRing_some_eq] at h
      split at h
      · exact absurd h (by simp)
      · split at h
        · exact absurd h (by simp)
        · refine ⟨by injection h with h2; exact h2.symm, ?_, ?_⟩
          · intro hnil
            simp [hnil] at *
          · intro e' he'
            injection he' with he'
            subst he'
            rename_i hcond
            simpa using hcond

/-- Shape of every segment string produced by the hole loop: it carries the
given element id and parent polygon, its ring id lies in the hole-index
range, and a present filter intersects its coordinate envelope. -/
theorem extractHoles_shape (isA : Bool) (env : Option Env) (P : Geometry) (eid : Nat) :
    ∀ (holes : List (List CoordinateXY)) (i : Nat) (s : RelateSegmentString),
      s ∈ extractHoles isA env P eid holes i →
      s.isA = isA ∧ s.elementId = eid ∧ s.parentPoly = some P ∧
      Int.ofNat i ≤ s.ringId ∧ s.ringId < Int.ofNat (i + holes.length) ∧
      (∀ e, env = some e → e.intersects (envOfCoords s.pts) = true)
  | [], i, s => by simp [extractHoles]
  | h :: rest, i, s => by
      intro hmem
      rw [extractHoles] at hmem
      rcases List.mem_append.mp hmem with hh | ht
      · have hsome : extractRing isA h (Int.ofNat i) env P eid = some s := by
          cases hr : extractRing isA h (Int.ofNat i) env P eid with
          | none => rw [hr] at hh; simp at hh
          | some r => rw [hr] at hh; simp at hh; rw [hh]
        obtain ⟨hs, _, hf⟩ := extractRing_shape _ _ _ _ _ _ _ hsome
        subst hs
        refine ⟨rfl, rfl, rfl, le_refl _, ?_, ?_⟩
        · show (Int.ofNat i) < Int.ofNat (i + (h :: rest).length)
          simp only [Int.ofNat_eq_coe, List.length_cons]
          omega
        · intro e he
          exact hf e he
      · obtain ⟨h1, h2, h3, h4, h5, h6⟩ := extractHoles_shape isA env P eid rest (i + 1) s ht
        refine ⟨h1, h2, h3, ?_, ?_, h6⟩
        · simp only [Int.ofNat_eq_coe] at h4 ⊢
          omega
        · simp only [Int.ofNat_eq_coe, List.length_cons] at h5 ⊢
          omega

/-- Two segment strings of the hole loop with the same ring id are equal. -/
theorem extractHoles_rid_inj (isA : Bool) (env : Option Env) (P : Geometry) (eid : Nat) :
    ∀ (holes : List (List CoordinateXY)) (i : Nat) (s t : RelateSegmentString),
      s ∈ extractHoles isA env P eid holes i →
      t ∈ extractHoles isA env P eid holes i →
      s.ringId = t.ringId → s = t
  | [], i, s, t => by simp [extractHoles]
  | h :: rest, i, s, t => by
      intro hs ht hrid
      rw [extractHoles] at hs ht
      rcases List.mem_append.mp hs with hsh | hst <;>
        rcases List.mem_append.mp ht with hth | htt
      · cases hr : extractRing isA h (Int.ofNat i) env P eid with
        | none => rw [hr] at hsh; simp at hsh
        | some r =>
            rw [hr] at hsh hth
            simp at hsh hth
            rw [hsh, hth]
      · exfalso
        have hsr : s.ringId = Int.ofNat i := by
          cases hr : extractRing isA h (Int.ofNat i) env P eid with
          | none => rw [hr] at hsh; simp at hsh
          | some r =>
              rw [hr] at hsh
              simp at hsh
              obtain ⟨he, _, _⟩ := extractRing_shape _ _ _ _ _ _ _ hr
              rw [hsh, he]
              rfl
        have := (extractHoles_shape isA env P eid rest (i + 1) t htt).2.2.2.1
        simp only [Int.ofNat_eq_coe] at hsr this
        omega
      · exfalso
        have htr : t.ringId = Int.ofNat i := by
          cases hr : extractRing isA h (Int.ofNat i) env P eid with
          | none => rw [hr] at hth; simp at hth
          | some r =>
              rw [hr] at hth
              simp at hth
              obtain ⟨he, _, _⟩ := extractRing_shape _ _ _ _ _ _ _ hr
              rw [hth, he]
              rfl
        have := (extractHoles_shape isA env P eid rest (i + 1) s hst).2.2.2.1
        simp only [Int.ofNat_eq_coe] at htr this
        omega
      · exact extractHoles_rid_inj isA env P eid rest (i + 1) s t hst htt hrid

/-- The hole at list position `j` (ring id `i + j`) is kept by the
unfiltered hole loop whenever it is non-empty. -/
theorem extractHoles_complete (isA : Bool) (P : Geometry) (eid : Nat) :
    ∀ (holes : List (List CoordinateXY)) (i j : Nat) (h : List CoordinateXY),
      holes.get? j = some h → h ≠ [] →
      RelateSegmentString.createRing h isA eid (Int.ofNat (i + j)) P
        ∈ extractHoles isA none P eid holes i
  | [], i, j, h => by simp
  | hd :: rest, i, 0, h => by
      intro hget hne
      simp only [List.get?_cons_zero, Option.some.injEq] at hget
      rw [hget]
      rw [extractHoles]
      apply List.mem_append.mpr
      left
      rw [extractRing_none_eq]
      have hne2 : List.isEmpty h = false := by
        cases h with
        | nil => exact absurd rfl hne
        | cons a t => rfl
      simp [hne2]
  | hd :: rest, i, j + 1, h => by
      intro hget hne
      simp only [List.get?_cons_succ] at hget
      have := extractHoles_complete isA P eid rest (i + 1) j h hget hne
      rw [extractHoles]
      apply List.mem_append.mpr
      right
      have harith : i + 1 + j = i + (j + 1) := by omega
      rwa [harith] at this

/-- An empty atomic element is skipped. -/
theorem extractAtomic_empty_eq (isA : Bool) (env : Option Env) (pp : Option Geometry)
    (g : Geometry) (eid : Nat) (h : g.isEmpty = true) :
    extractAtomic isA env pp g eid = ([], eid) := by
  unfold extractAtomic
  rw [if_pos h]

/-- An atomic element whose envelope misses the filter is skipped. -/
theorem extractAtomic_filtered_eq (isA : Bool) (env : Option Env) (pp : Option Geometry)
    (g : Geometry) (eid : Nat) (hne : g.isEmpty = false)
    (h : doExtractOf env g = false) :
    extractAtomic isA env pp g eid = ([], eid) := by
  unfold extractAtomic
  rw [if_neg (by simp [hne]), if_pos h]

/-- A non-empty atomic element that passes the filter is dispatched on its
type with a bumped element counter. -/
theorem extractAtomic_run (isA : Bool) (env : Option Env) (pp : Option Geometry)
    (g : Geometry) (eid : Nat) (hne : g.isEmpty = false)
    (hfil : doExtractOf env g = true) :
    extractAtomic isA env pp g eid =
      (match g with
       | Geometry.lineString pts =>
           ([RelateSegmentString.createLine pts isA (eid + 1)], eid + 1)
       | Geometry.polygon shell holes =>
           ((extractRing isA shell 0 env (parentPolyOf pp shell holes)
               (eid + 1)).toList
             ++ extractHoles isA env (parentPolyOf pp shell holes) (eid + 1) holes 1,
            eid + 1)
       | _ => ([], eid + 1)) := by
  unfold extractAtomic
  rw [if_neg (by simp [hne]), if_neg (by simp [hfil])]
  cases g <;> rfl

/-- The element counter moves by at most one. -/
theorem extractAtomic_eid_le (isA : Bool) (env : Option Env) (pp : Option Geometry)
    (g : Geometry) (eid : Nat) :
    eid ≤ (extractAtomic isA env pp g eid).2 ∧
    (extractAtomic isA env pp g eid).2 ≤ eid + 1 := by
  by_cases hemp : g.isEmpty = true
  · rw [extractAtomic_empty_eq _ _ _ _ _ hemp]
    omega
  · have hne : g.isEmpty = false := by simpa using hemp
    by_cases hfil : doExtractOf env g = true
    · rw [extractAtomic_run _ _ _ _ _ hne hfil]
      cases g <;> simp
    · have hf : doExtractOf env g = false := by simpa using hfil
      rw [extractAtomic_filtered_eq _ _ _ _ _ hne hf]
      omega

/-- Shape of every segment string an atomic element produces: it carries the
source flag, the bumped element id (which is also the resulting counter),
and is either the line string of a LINESTRING element (ring id -1, no
parent) or a ring string of a POLYGON element (ring id at least 0, parent
as recorded). -/
theorem extractAtomic_shape (isA : Bool) (env : Option Env) (pp : Option Geometry)
    (g : Geometry) (eid : Nat) :
    ∀ s ∈ (extractAtomic isA env pp g eid).1,
      s.isA = isA ∧ s.elementId = eid + 1 ∧
      (extractAtomic isA env pp g eid).2 = eid + 1 ∧
      ((s.ringId = -1 ∧ s.parentPoly = none ∧ g = Geometry.lineString s.pts) ∨
       (0 ≤ s.ringId ∧ ∃ shell holes, g = Geometry.polygon shell holes ∧
          s.parentPoly = some (parentPolyOf pp shell holes))) := by
  intro s hs
  by_cases hemp : g.isEmpty = true
  · rw [extractAtomic_empty_eq _ _ _ _ _ hemp] at hs
    simp at hs
  · have hne : g.isEmpty = false := by simpa using hemp
    by_cases hfil : doExtractOf env g = true
    · rw [extractAtomic_run _ _ _ _ _ hne hfil] at hs
      rw [extractAtomic_run _ _ _ _ _ hne hfil]
      cases g with
      | lineString pts =>
          simp only [List.mem_singleton] at hs
          subst hs
          exact ⟨rfl, rfl, rfl, Or.inl ⟨rfl, rfl, rfl⟩⟩
      | polygon shell holes =>
          rcases List.mem_append.mp hs with hh | ht
          · have hsome : extractRing isA shell 0 env
                (parentPolyOf pp shell holes) (eid + 1) = some s := by
              cases hr : extractRing isA shell 0 env
                  (parentPolyOf pp shell holes) (eid + 1) with
              | none => rw [hr] at hh; simp at hh
              | some r => rw [hr] at hh; simp at hh; rw [hh]
            obtain ⟨hseq, _, _⟩ := extractRing_shape _ _ _ _ _ _ _ hsome
            subst hseq
            exact ⟨rfl, rfl, rfl, Or.inr ⟨le_refl 0, shell, holes, rfl, rfl⟩⟩
          · obtain ⟨h1, h2, h3, h4, _, _⟩ := extractHoles_shape _ _ _ _ _ _ _ ht
            refine ⟨h1, h2, rfl, Or.inr ⟨?_, shell, holes, rfl, h3⟩⟩
            simp only [Int.ofNat_eq_coe] at h4
            omega
      | point c => simp at hs
      | linearRing pts => simp at hs
      | multiPoint gs => simp at hs
      | multiLineString gs => simp at hs
      | multiPolygon gs => simp at hs
      | geometryCollection gs => simp at hs
    · have hf : doExtractOf env g = false := by simpa using hfil
      rw [extractAtomic_filtered_eq _ _ _ _ _ hne hf] at hs
      simp at hs

/-- Two distinct segment strings of one atomic element have distinct ring
ids and the same parent polygon. -/
theorem extractAtomic_pairwise (isA : Bool) (env : Option Env) (pp : Option Geometry)
    (g : Geometry) (eid : Nat) (s t : RelateSegmentString)
    (hs : s ∈ (extractAtomic isA env pp g eid).1)
    (ht : t ∈ (extractAtomic isA env pp g eid).1)
    (hne : s ≠ t) :
    s.ringId ≠ t.ringId ∧ s.parentPoly = t.parentPoly ∧
    0 ≤ s.ringId ∧ 0 ≤ t.ringId := by
  by_cases hemp : g.isEmpty = true
  · rw [extractAtomic_empty_eq _ _ _ _ _ hemp] at hs
    simp at hs
  · have hnem : g.isEmpty = false := by simpa using hemp
    by_cases hfil : doExtractOf env g = true
    · rw [extractAtomic_run _ _ _ _ _ hnem hfil] at hs ht
      cases g with
      | lineString pts =>
          simp only [List.mem_singleton] at hs ht
          exact absurd (hs.trans ht.symm) hne
      | polygon shell holes =>
          have hrid : s.ringId = t.ringId → s = t := by
            intro hr
            rcases List.mem_append.mp hs with hsh | hst <;>
              rcases List.mem_append.mp ht with hth | htt
            · cases hx : extractRing isA shell 0 env
                  (parentPolyOf pp shell holes) (eid + 1) with
              | none => rw [hx] at hsh; simp at hsh
              | some r =>
                  rw [hx] at hsh hth
                  simp at hsh hth
                  rw [hsh, hth]
            · exfalso
              have hs0 : s.ringId = 0 := by
                cases hx : extractRing isA shell 0 env
                    (parentPolyOf pp shell holes) (eid + 1) with
                | none => rw [hx] at hsh; simp at hsh
                | some r =>
                    rw [hx] at hsh
                    simp at hsh
                    obtain ⟨he, _, _⟩ := extractRing_shape _ _ _ _ _ _ _ hx
                    rw [hsh, he]
                    rfl
              have := (extractHoles_shape _ _ _ _ _ _ _ htt).2.2.2.1
              simp only [Int.ofNat_eq_coe] at this
              omega
            · exfalso
              have ht0 : t.ringId = 0 := by
                cases hx : extractRing isA shell 0 env
                    (parentPolyOf pp shell holes) (eid + 1) with
                | none => rw [hx] at hth; simp at hth
                | some r =>
                    rw [hx] at hth
                    simp at hth
                    obtain ⟨he, _, _⟩ := extractRing_shape _ _ _ _ _ _ _ hx
                    rw [hth, he]
                    rfl
              have := (extractHoles_shape _ _ _ _ _ _ _ hst).2.2.2.1
              simp only [Int.ofNat_eq_coe] at this
              omega
            · exact extractHoles_rid_inj _ _ _ _ _ _ _ _ hst htt hr
          have hpar : s.parentPoly = t.parentPoly := by
            have hps : s.parentPoly = some (parentPolyOf pp shell holes) := by
              rcases List.mem_append.mp hs with hsh | hst
              · cases hx : extractRing isA shell 0 env
                    (parentPolyOf pp shell holes) (eid + 1) with
                | none => rw [hx] at hsh; simp at hsh
                | some r =>
                    rw [hx] at hsh
                    simp at hsh
                    obtain ⟨he, _, _⟩ := extractRing_shape _ _ _ _ _ _ _ hx
                    rw [hsh, he]
                    rfl
              · exact (extractHoles_shape _ _ _ _ _ _ _ hst).2.2.1
            have hpt : t.parentPoly = some (parentPolyOf pp shell holes) := by
              rcases List.mem_append.mp ht with hth | htt
              · cases hx : extractRing isA shell 0 env
                    (parentPolyOf pp shell holes) (eid + 1) with
                | none => rw [hx] at hth; simp at hth
                | some r =>
                    rw [hx] at hth
                    simp at hth
                    obtain ⟨he, _, _⟩ := extractRing_shape _ _ _ _ _ _ _ hx
                    rw [hth, he]
                    rfl
              · exact (extractHoles_shape _ _ _ _ _ _ _ htt).2.2.1
            rw [hps, hpt]
          have hs0 : 0 ≤ s.ringId := by
            rcases List.mem_append.mp hs with hsh | hst
            · cases hx : extractRing isA shell 0 env
                  (parentPolyOf pp shell holes) (eid + 1) with
              | none => rw [hx] at hsh; simp at hsh
              | some r =>
                  rw [hx] at hsh
                  simp at hsh
                  obtain ⟨he, _, _⟩ := extractRing_shape _ _ _ _ _ _ _ hx
                  rw [hsh, he]
                  exact le_refl 0
            · have := (extractHoles_shape _ _ _ _ _ _ _ hst).2.2.2.1
              simp only [Int.ofNat_eq_coe] at this
              omega
          have ht0 : 0 ≤ t.ringId := by
            rcases List.mem_append.mp ht with hth | htt
            · cases hx : extractRing isA shell 0 env
                  (parentPolyOf pp shell holes) (eid + 1) with
              | none => rw [hx] at hth; simp at hth
              | some r =>
                  rw [hx] at hth
                  simp at hth
                  obtain ⟨he, _, _⟩ := extractRing_shape _ _ _ _ _ _ _ hx
                  rw [hth, he]
                  exact le_refl 0
            · have := (extractHoles_shape _ _ _ _ _ _ _ htt).2.2.2.1
              simp only [Int.ofNat_eq_coe] at this
              omega
          exact ⟨fun hr => hne (hrid hr), hpar, hs0, ht0⟩
      | point c => simp at hs
      | linearRing pts => simp at hs
      | multiPoint gs => simp at hs
      | multiLineString gs => simp at hs
      | multiPolygon gs => simp at hs
      | geometryCollection gs => simp at hs
    · have hf : doExtractOf env g = false := by simpa using hfil
      rw [extractAtomic_filtered_eq _ _ _ _ _ hnem hf] at hs
      simp at hs

/-- Element-id bounds for one atomic element. -/
theorem extractAtomic_ids (isA : Bool) (env : Option Env) (pp : Option Geometry)
    (g : Geometry) (eid : Nat) :
    eid ≤ (extractAtomic isA env pp g eid).2 ∧
    ∀ s ∈ (extractAtomic isA env pp g eid).1,
      s.isA = isA ∧ eid < s.elementId ∧
      s.elementId ≤ (extractAtomic isA env pp g eid).2 := by
  refine ⟨(extractAtomic_eid_le _ _ _ _ _).1, ?_⟩
  intro s hs
  obtain ⟨h1, h2, h3, _⟩ := extractAtomic_shape _ _ _ _ _ s hs
  refine ⟨h1, by omega, by omega⟩

mutual

/-- Element-id bounds for one component step: produced ids lie strictly
between the incoming and the resulting counter. -/
theorem extractStep_ids (isA : Bool) (env : Option Env) :
    ∀ (g : Geometry) (pp : Option Geometry) (eid : Nat),
      eid ≤ (extractStep isA env pp g eid).2 ∧
      ∀ s ∈ (extractStep isA env pp g eid).1,
        s.isA = isA ∧ eid < s.elementId ∧
        s.elementId ≤ (extractStep isA env pp g eid).2
  | .geometryCollection gs2, pp, eid => by
      simpa [extractStep] using extractIter_ids isA env gs2 none eid
  | .point c, pp, eid => by
      simpa [extractStep] using extractAtomic_ids isA env pp (.point c) eid
  | .lineString pts, pp, eid => by
      simpa [extractStep] using extractAtomic_ids isA env pp (.lineString pts) eid
  | .linearRing pts, pp, eid => by
      simpa [extractStep] using extractAtomic_ids isA env pp (.linearRing pts) eid
  | .polygon shell holes, pp, eid => by
      simpa [extractStep] using extractAtomic_ids isA env pp (.polygon shell holes) eid
  | .multiPoint gs, pp, eid => by
      simpa [extractStep] using extractAtomic_ids isA env pp (.multiPoint gs) eid
  | .multiLineString gs, pp, eid => by
      simpa [extractStep] using extractAtomic_ids isA env pp (.multiLineString gs) eid
  | .multiPolygon gs, pp, eid => by
      simpa [extractStep] using extractAtomic_ids isA env pp (.multiPolygon gs) eid

/-- Element-id bounds for the component loop. -/
theorem extractIter_ids (isA : Bool) (env : Option Env) :
    ∀ (gs : List Geometry) (pp : Option Geometry) (eid : Nat),
      eid ≤ (extractIter isA env pp gs eid).2 ∧
      ∀ s ∈ (extractIter isA env pp gs eid).1,
        s.isA = isA ∧ eid < s.elementId ∧
        s.elementId ≤ (extractIter isA env pp gs eid).2
  | [], pp, eid => by simp [extractIter]
  | g :: rest, pp, eid => by
      have h1 := extractStep_ids isA env g pp eid
      have h2 := extractIter_ids isA env rest pp (extractStep isA env pp g eid).2
      simp only [extractIter]
      constructor
      · exact le_trans h1.1 h2.1
      · intro s hs
        rcases List.mem_append.mp hs with hl | hr
        · obtain ⟨ha, hb, hc⟩ := h1.2 s hl
          exact ⟨ha, hb, le_trans hc h2.1⟩
        · obtain ⟨ha, hb, hc⟩ := h2.2 s hr
          exact ⟨ha, by omega, hc⟩

end

mutual

/-- Distinct segment strings of one component step sharing an element id are
rings of one polygon: same parent, distinct nonnegative ring ids. -/
theorem extractStep_pairs (isA : Bool) (env : Option Env) :
    ∀ (g : Geometry) (pp : Option Geometry) (eid : Nat)
      (s t : RelateSegmentString),
      s ∈ (extractStep isA env pp g eid).1 → t ∈ (extractStep isA env pp g eid).1 →
      s.elementId = t.elementId → s ≠ t →
      s.ringId ≠ t.ringId ∧ s.parentPoly = t.parentPoly ∧
      0 ≤ s.ringId ∧ 0 ≤ t.ringId
  | .geometryCollection gs2, pp, eid, s, t => by
      intro hs ht heq hne
      rw [extractStep] at hs ht
      exact extractIter_pairs isA env gs2 none eid s t hs ht heq hne
  | .point c, pp, eid, s, t => fun hs ht heq hne =>
      extractAtomic_pairwise isA env pp (.point c) eid s t hs ht hne
  | .lineString pts, pp, eid, s, t => fun hs ht heq hne =>
      extractAtomic_pairwise isA env pp (.lineString pts) eid s t hs ht hne
  | .linearRing pts, pp, eid, s, t => fun hs ht heq hne =>
      extractAtomic_pairwise isA env pp (.linearRing pts) eid s t hs ht hne
  | .polygon shell holes, pp, eid, s, t => fun hs ht heq hne =>
      extractAtomic_pairwise isA env pp (.polygon shell holes) eid s t hs ht hne
  | .multiPoint gs, pp, eid, s, t => fun hs ht heq hne =>
      extractAtomic_pairwise isA env pp (.multiPoint gs) eid s t hs ht hne
  | .multiLineString gs, pp, eid, s, t => fun hs ht heq hne =>
      extractAtomic_pairwise isA env pp (.multiLineString gs) eid s t hs ht hne
  | .multiPolygon gs, pp, eid, s, t => fun hs ht heq hne =>
      extractAtomic_pairwise isA env pp (.multiPolygon gs) eid s t hs ht hne

/-- Distinct segment strings of the component loop sharing an element id are
rings of one polygon. -/
theorem extractIter_pairs (isA : Bool) (env : Option Env) :
    ∀ (gs : List Geometry) (pp : Option Geometry) (eid : Nat)
      (s t : RelateSegmentString),
      s ∈ (extractIter isA env pp gs eid).1 → t ∈ (extractIter isA env pp gs eid).1 →
      s.elementId = t.elementId → s ≠ t →
      s.ringId ≠ t.ringId ∧ s.parentPoly = t.parentPoly ∧
      0 ≤ s.ringId ∧ 0 ≤ t.ringId
  | [], pp, eid, s, t => by simp [extractIter]
  | g :: rest, pp, eid, s, t => by
      intro hs ht heq hne
      simp only [extractIter] at hs ht
      have hstep := extractStep_ids isA env g pp eid
      have hiter := extractIter_ids isA env rest pp (extractStep isA env pp g eid).2
      rcases List.mem_append.mp hs with hsl | hsr <;>
        rcases List.mem_append.mp ht with htl | htr
      · exact extractStep_pairs isA env g pp eid s t hsl htl heq hne
      · exfalso
        have hsb := (hstep.2 s hsl).2.2
        have htb := (hiter.2 t htr).2.1
        omega
      · exfalso
        have htb := (hstep.2 t htl).2.2
        have hsb := (hiter.2 s hsr).2.1
        omega
      · exact extractIter_pairs isA env rest pp
          (extractStep isA env pp g eid).2 s t hsr htr heq hne

end

/-- With a null parentPolygonal, every ring segment string of one atomic
element points back to its own polygon. -/
theorem extractAtomic_parent_none (isA : Bool) (env : Option Env) (g : Geometry)
    (eid : Nat) (s : RelateSegmentString)
    (hs : s ∈ (extractAtomic isA env none g eid).1) (hr : 0 ≤ s.ringId) :
    ∃ sh hl, s.parentPoly = some (Geometry.polygon sh hl) := by
  obtain ⟨_, _, _, hshape⟩ := extractAtomic_shape isA env none g eid s hs
  rcases hshape with ⟨hrid, _, _⟩ | ⟨_, sh, hl, _, hp⟩
  · omega
  · exact ⟨sh, hl, by simpa [parentPolyOf] using hp⟩

mutual

/-- With a null parentPolygonal, every ring segment string of a component
step points back to its own polygon (never to a MultiPolygon). -/
theorem extractStep_parent_none (isA : Bool) (env : Option Env) :
    ∀ (g : Geometry) (eid : Nat) (s : RelateSegmentString),
      s ∈ (extractStep isA env none g eid).1 → 0 ≤ s.ringId →
      ∃ sh hl, s.parentPoly = some (Geometry.polygon sh hl)
  | .geometryCollection gs2, eid, s => by
      intro hs hr
      rw [extractStep] at hs
      exact extractIter_parent_none isA env gs2 eid s hs hr
  | .point c, eid, s => fun hs hr =>
      extractAtomic_parent_none isA env (.point c) eid s hs hr
  | .lineString pts, eid, s => fun hs hr =>
      extractAtomic_parent_none isA env (.lineString pts) eid s hs hr
  | .linearRing pts, eid, s => fun hs hr =>
      extractAtomic_parent_none isA env (.linearRing pts) eid s hs hr
  | .polygon shell holes, eid, s => fun hs hr =>
      extractAtomic_parent_none isA env (.polygon shell holes) eid s hs hr
  | .multiPoint gs, eid, s => fun hs hr =>
      extractAtomic_parent_none isA env (.multiPoint gs) eid s hs hr
  | .multiLineString gs, eid, s => fun hs hr =>
      extractAtomic_parent_none isA env (.multiLineString gs) eid s hs hr
  | .multiPolygon gs, eid, s => fun hs hr =>
      extractAtomic_parent_none isA env (.multiPolygon gs) eid s hs hr

/-- With a null parentPolygonal, every ring segment string of the component
loop points back to its own polygon. -/
theorem extractIter_parent_none (isA : Bool) (env : Option Env) :
    ∀ (gs : List Geometry) (eid : Nat) (s : RelateSegmentString),
      s ∈ (extractIter isA env none gs eid).1 → 0 ≤ s.ringId →
      ∃ sh hl, s.parentPoly = some (Geometry.polygon sh hl)
  | [], eid, s => by simp [extractIter]
  | g :: rest, eid, s => by
      intro hs hr
      simp only [extractIter] at hs
      rcases List.mem_append.mp hs with hl | hr2
      · exact extractStep_parent_none isA env g eid s hl hr
      · exact extractIter_parent_none isA env rest
          (extractStep isA env none g eid).2 s hr2 hr

end

/-- A non-empty coordinate list is not `isEmpty`. -/
theorem isEmpty_false_of_ne_nil {α : Type} {l : List α} (h : l ≠ []) :
    l.isEmpty = false := by
  cases l with
  | nil => exact absurd rfl h
  | cons a t => rfl

/-- A LineString with coordinates is non-empty. -/
theorem isEmpty_lineString_false {pts : List CoordinateXY} (h : pts ≠ []) :
    Geometry.isEmpty (Geometry.lineString pts) = false := by
  rw [Geometry.isEmpty]
  exact isEmpty_false_of_ne_nil h

/-- A Polygon with a non-empty shell is non-empty. -/
theorem isEmpty_polygon_false {shell : List CoordinateXY}
    (holes : List (List CoordinateXY)) (h : shell ≠ []) :
    Geometry.isEmpty (Geometry.polygon shell holes) = false := by
  rw [Geometry.isEmpty]
  exact isEmpty_false_of_ne_nil h

/-- Under a MultiPolygon parentPolygonal, every segment string of an
all-polygon component list carries that MultiPolygon as parent. -/
theorem extractIter_parent_mp (isA : Bool) (env : Option Env) (mp : Geometry) :
    ∀ (polys : List Geometry) (eid : Nat), allPolygonG polys = true →
      ∀ s ∈ (extractIter isA env (some mp) polys eid).1, s.parentPoly = some mp
  | [], eid => by simp [extractIter]
  | g :: rest, eid => by
      intro hall s hs
      simp only [extractIter] at hs
      cases g with
      | polygon shell holes =>
          have hrest : allPolygonG rest = true := by
            rw [allPolygonG] at hall
            simpa [isPolygonG] using hall
          rcases List.mem_append.mp hs with hl | hr
          · obtain ⟨_, _, _, hshape⟩ :=
              extractAtomic_shape isA env (some mp) (.polygon shell holes) eid s hl
            rcases hshape with ⟨_, _, habs⟩ | ⟨_, sh, hl2, _, hp⟩
            · simp at habs
            · simpa [parentPolyOf] using hp
          · exact extractIter_parent_mp isA env mp rest
              (extractStep isA env (some mp) (.polygon shell holes) eid).2 hrest s hr
      | point c => rw [allPolygonG] at hall; simp [isPolygonG] at hall
      | lineString pts => rw [allPolygonG] at hall; simp [isPolygonG] at hall
      | linearRing pts => rw [allPolygonG] at hall; simp [isPolygonG] at hall
      | multiPoint gs => rw [allPolygonG] at hall; simp [isPolygonG] at hall
      | multiLineString gs => rw [allPolygonG] at hall; simp [isPolygonG] at hall
      | multiPolygon gs => rw [allPolygonG] at hall; simp [isPolygonG] at hall
      | geometryCollection gs => rw [allPolygonG] at hall; simp [isPolygonG] at hall

/-- Claim C5.  Each extracted non-empty LineString yields exactly one
segment string with ring id -1; each extracted polygon yields one segment
string per (non-empty) ring with ring id 0 for the shell and i for the i-th
hole (counting from 1); and in the whole extraction, distinct segment
strings sharing an element id are rings of one polygon — atomic elements
receive distinct element ids from the threaded counter. -/
theorem extractSegmentStrings_structure :
    (∀ (isA : Bool) (pp : Option Geometry) (pts : List CoordinateXY) (eid : Nat),
      pts ≠ [] →
      extractAtomic isA none pp (Geometry.lineString pts) eid =
        ([RelateSegmentString.createLine pts isA (eid + 1)], eid + 1)) ∧
    (∀ (isA : Bool) (pp : Option Geometry) (shell : List CoordinateXY)
        (holes : List (List CoordinateXY)) (eid : Nat),
      shell ≠ [] →
      extractAtomic isA none pp (Geometry.polygon shell holes) eid =
        (RelateSegmentString.createRing shell isA (eid + 1) 0
            (parentPolyOf pp shell holes)
          :: extractHoles isA none (parentPolyOf pp shell holes) (eid + 1) holes 1,
         eid + 1)) ∧
    (∀ (isA : Bool) (P : Geometry) (eid : Nat) (holes : List (List CoordinateXY))
        (j : Nat) (h : List CoordinateXY),
      holes.get? j = some h → h ≠ [] →
      RelateSegmentString.createRing h isA eid (Int.ofNat (1 + j)) P
        ∈ extractHoles isA none P eid holes 1) ∧
    (∀ (isA : Bool) (env : Option Env) (g : Geometry) (eid : Nat)
        (s t : RelateSegmentString),
      s ∈ (extractSegmentStrings isA env g eid).1 →
      t ∈ (extractSegmentStrings isA env g eid).1 →
      s.elementId = t.elementId → s ≠ t →
      s.ringId ≠ t.ringId ∧ s.parentPoly = t.parentPoly ∧
      0 ≤ s.ringId ∧ 0 ≤ t.ringId) := by
  refine ⟨?_, ?_, ?_, ?_⟩
  · intro isA pp pts eid hpts
    rw [extractAtomic_run isA none pp _ eid (isEmpty_lineString_false hpts) rfl]
  · intro isA pp shell holes eid hshell
    rw [extractAtomic_run isA none pp _ eid (isEmpty_polygon_false holes hshell) rfl]
    show ((extractRing isA shell 0 none (parentPolyOf pp shell holes) (eid + 1)).toList
        ++ extractHoles isA none (parentPolyOf pp shell holes) (eid + 1) holes 1,
      eid + 1) = _
    rw [extractRing_none_eq]
    simp [isEmpty_false_of_ne_nil hshell]
  · intro isA P eid holes j h hget hne
    exact extractHoles_complete isA P eid holes 1 j h hget hne
  · intro isA env g eid s t hs ht heq hne
    simp only [extractSegmentStrings] at hs ht
    exact extractIter_pairs isA env (components g) _ eid s t hs ht heq hne

/-- Witness for C5: a concrete polygon with one hole extracts its shell
(ring id 0) and hole (ring id 1). -/
theorem extractSegmentStrings_structure_witness :
    extractAtomic true none none
        (Geometry.polygon [⟨0, 0⟩, ⟨4, 0⟩, ⟨4, 4⟩, ⟨0, 0⟩]
          [[⟨1, 1⟩, ⟨2, 1⟩, ⟨2, 2⟩, ⟨1, 1⟩]]) 0 =
      (RelateSegmentString.createRing [⟨0, 0⟩, ⟨4, 0⟩, ⟨4, 4⟩, ⟨0, 0⟩] true (0 + 1) 0
          (parentPolyOf none [⟨0, 0⟩, ⟨4, 0⟩, ⟨4, 4⟩, ⟨0, 0⟩]
            [[⟨1, 1⟩, ⟨2, 1⟩, ⟨2, 2⟩, ⟨1, 1⟩]])
        :: extractHoles true none
            (parentPolyOf none [⟨0, 0⟩, ⟨4, 0⟩, ⟨4, 4⟩, ⟨0, 0⟩]
              [[⟨1, 1⟩, ⟨2, 1⟩, ⟨2, 2⟩, ⟨1, 1⟩]]) (0 + 1)
            [[⟨1, 1⟩, ⟨2, 1⟩, ⟨2, 2⟩, ⟨1, 1⟩]] 1,
       0 + 1) :=
  extractSegmentStrings_structure.2.1 true none
    [⟨0, 0⟩, ⟨4, 0⟩, ⟨4, 4⟩, ⟨0, 0⟩] [[⟨1, 1⟩, ⟨2, 1⟩, ⟨2, 2⟩, ⟨1, 1⟩]] 0
    (by decide)

/-- Claim C6.  An empty atomic element or empty ring produces no segment
string; with a filter envelope, segment strings are produced only when the
element envelope (and for rings the ring envelope) intersects the filter;
with no filter, every non-empty atomic element is processed (the counter is
bumped) and every non-empty ring is kept. -/
theorem extractSegmentStrings_envFilter :
    (∀ (isA : Bool) (env : Option Env) (pp : Option Geometry)
        (g : Geometry) (eid : Nat),
      g.isEmpty = true → extractAtomic isA env pp g eid = ([], eid)) ∧
    (∀ (isA : Bool) (env : Option Env) (rid : Int) (P : Geometry) (eid : Nat),
      extractRing isA [] rid env P eid = none) ∧
    (∀ (isA : Bool) (e : Env) (pp : Option Geometry) (g : Geometry) (eid : Nat),
      ((extractAtomic isA (some e) pp g eid).1 ≠ [] →
        e.intersects (envelopeOf g) = true) ∧
      (∀ s ∈ (extractAtomic isA (some e) pp g eid).1,
        e.intersects (envOfCoords s.pts) = true)) ∧
    (∀ (isA : Bool) (pp : Option Geometry) (g : Geometry) (eid : Nat),
      g.isEmpty = false → (extractAtomic isA none pp g eid).2 = eid + 1) ∧
    (∀ (isA : Bool) (ring : List CoordinateXY) (rid : Int) (P : Geometry) (eid : Nat),
      ring ≠ [] →
      extractRing isA ring rid none P eid =
        some (RelateSegmentString.createRing ring isA eid rid P)) := by
  refine ⟨?_, ?_, ?_, ?_, ?_⟩
  · exact fun isA env pp g eid h => extractAtomic_empty_eq isA env pp g eid h
  · intro isA env rid P eid
    cases env with
    | none => rw [extractRing_none_eq]; rfl
    | some e => rw [extractRing_some_eq]; rfl
  · intro isA e pp g eid
    constructor
    · intro hne
      by_cases hemp : g.isEmpty = true
      · rw [extractAtomic_empty_eq _ _ _ _ _ hemp] at hne
        simp at hne
      · have hnem : g.isEmpty = false := by simpa using hemp
        by_cases hfil : doExtractOf (some e) g = true
        · simpa [doExtractOf] using hfil
        · have hf : doExtractOf (some e) g = false := by simpa using hfil
          rw [extractAtomic_filtered_eq _ _ _ _ _ hnem hf] at hne
          simp at hne
    · intro s hs
      by_cases hemp : g.isEmpty = true
      · rw [extractAtomic_empty_eq _ _ _ _ _ hemp] at hs
        simp at hs
      · have hnem : g.isEmpty = false := by simpa using hemp
        by_cases hfil : doExtractOf (some e) g = true
        · have hint : e.intersects (envelopeOf g) = true := by
            simpa [doExtractOf] using hfil
          rw [extractAtomic_run _ _ _ _ _ hnem hfil] at hs
          cases g with
          | lineString pts =>
              simp only [List.mem_singleton] at hs
              subst hs
              simpa [envelopeOf, allCoords] using hint
          | polygon shell holes =>
              rcases List.mem_append.mp hs with hh | ht
              · have hsome : extractRing isA shell 0 (some e)
                    (parentPolyOf pp shell holes) (eid + 1) = some s := by
                  cases hr : extractRing isA shell 0 (some e)
                      (parentPolyOf pp shell holes) (eid + 1) with
                  | none => rw [hr] at hh; simp at hh
                  | some r => rw [hr] at hh; simp at hh; rw [hh]
                obtain ⟨hseq, _, hf⟩ := extractRing_shape _ _ _ _ _ _ _ hsome
                subst hseq
                exact hf e rfl
              · exact (extractHoles_shape _ _ _ _ _ _ _ ht).2.2.2.2.2 e rfl
          | point c => simp at hs
          | linearRing pts => simp at hs
          | multiPoint gs => simp at hs
          | multiLineString gs => simp at hs
          | multiPolygon gs => simp at hs
          | geometryCollection gs => simp at hs
        · have hf : doExtractOf (some e) g = false := by simpa using hfil
          rw [extractAtomic_filtered_eq _ _ _ _ _ hnem hf] at hs
          simp at hs
  · intro isA pp g eid hne
    rw [extractAtomic_run isA none pp g eid hne rfl]
    cases g <;> simp
  · intro isA ring rid P eid hne
    rw [extractRing_none_eq]
    simp [isEmpty_false_of_ne_nil hne]

/-- Witness for C6: a concrete empty point produces nothing, and a concrete
ring outside the filter envelope is dropped while the element counter and
an in-envelope extraction still behave as stated. -/
theorem extractSegmentStrings_envFilter_witness :
    extractAtomic true none none (Geometry.point none) 7 = ([], 7) :=
  extractSegmentStrings_envFilter.1 true none none (Geometry.point none) 7 rfl

/-- Claim C7.  A ring segment string carries the MultiPolygon back-pointer
exactly when the polygon's direct parent is a MultiPolygon (the top-level
input); a polygon reached directly or through a GeometryCollection gets its
own polygon as parent, never a MultiPolygon. -/
theorem extractSegmentStrings_parent :
    (∀ (isA : Bool) (env : Option Env) (polys : List Geometry) (eid : Nat),
      allPolygonG polys = true →
      ∀ s ∈ (extractSegmentStrings isA env (Geometry.multiPolygon polys) eid).1,
        s.parentPoly = some (Geometry.multiPolygon polys)) ∧
    (∀ (isA : Bool) (env : Option Env) (shell : List CoordinateXY)
        (holes : List (List CoordinateXY)) (eid : Nat),
      ∀ s ∈ (extractSegmentStrings isA env (Geometry.polygon shell holes) eid).1,
        s.parentPoly = some (Geometry.polygon shell holes)) ∧
    (∀ (isA : Bool) (env : Option Env) (gs : List Geometry) (eid : Nat),
      ∀ s ∈ (extractSegmentStrings isA env (Geometry.geometryCollection gs) eid).1,
        0 ≤ s.ringId →
        ∃ sh hl, s.parentPoly = some (Geometry.polygon sh hl)) := by
  refine ⟨?_, ?_, ?_⟩
  · intro isA env polys eid hall s hs
    simp only [extractSegmentStrings, components] at hs
    exact extractIter_parent_mp isA env (Geometry.multiPolygon polys) polys eid hall s hs
  · intro isA env shell holes eid s hs
    simp only [extractSegmentStrings, components, extractIter, extractStep,
      List.append_nil] at hs
    obtain ⟨_, _, _, hshape⟩ :=
      extractAtomic_shape isA env none (.polygon shell holes) eid s hs
    rcases hshape with ⟨_, _, habs⟩ | ⟨_, sh, hl2, heq, hp⟩
    · simp at habs
    · injection heq with he1 he2
      subst he1
      subst he2
      simpa [parentPolyOf] using hp
  · intro isA env gs eid s hs hrid
    simp only [extractSegmentStrings, components] at hs
    exact extractIter_parent_none isA env gs eid s hs hrid

/-- Witness for C7: the shell ring of a polygon inside a concrete two-part
MultiPolygon points back to the MultiPolygon itself. -/
theorem extractSegmentStrings_parent_witness :
    (RelateSegmentString.createRing [⟨0, 0⟩, ⟨1, 0⟩, ⟨1, 1⟩, ⟨0, 0⟩] true 1 0
        (Geometry.multiPolygon
          [Geometry.polygon [⟨0, 0⟩, ⟨1, 0⟩, ⟨1, 1⟩, ⟨0, 0⟩] []])).parentPoly =
      some (Geometry.multiPolygon
        [Geometry.polygon [⟨0, 0⟩, ⟨1, 0⟩, ⟨1, 1⟩, ⟨0, 0⟩] []]) :=
  extractSegmentStrings_parent.1 true none
    [Geometry.polygon [⟨0, 0⟩, ⟨1, 0⟩, ⟨1, 1⟩, ⟨0, 0⟩] []] 0 rfl
    (RelateSegmentString.createRing [⟨0, 0⟩, ⟨1, 0⟩, ⟨1, 1⟩, ⟨0, 0⟩] true 1 0
      (Geometry.multiPolygon
        [Geometry.polygon [⟨0, 0⟩, ⟨1, 0⟩, ⟨1, 1⟩, ⟨0, 0⟩] []]))
    (List.Mem.head _)

/-!  Lemmas about `analyzeDimensions` over well-formed inputs. -/

/-- A simple (non-collection) component of type Point, LineString or
Polygon. -/
def isSimpleLeaf : Geometry → Bool
  | .point _ => true
  | .lineString _ => true
  | .polygon _ _ => true
  | _ => false

/-- A point is its own single simple component. -/
theorem getAllGeometries_point (c : Option CoordinateXY) :
    getAllGeometries (Geometry.point c) = [Geometry.point c] := rfl

/-- A line string is its own single simple component. -/
theorem getAllGeometries_lineString (pts : List CoordinateXY) :
    getAllGeometries (Geometry.lineString pts) = [Geometry.lineString pts] := rfl

/-- A polygon is its own single simple component. -/
theorem getAllGeometries_polygon (sh : List CoordinateXY)
    (hl : List (List CoordinateXY)) :
    getAllGeometries (Geometry.polygon sh hl) = [Geometry.polygon sh hl] := rfl

/-- A list of points is its own leaf list. -/
theorem getAllGeomList_of_points :
    ∀ gs : List Geometry, allPointG gs = true → getAllGeomList gs = gs
  | [] => fun _ => rfl
  | g :: rest => by
      intro hall
      rw [allPointG] at hall
      cases g with
      | point c =>
          have hrest : allPointG rest = true := by simpa [isPointG] using hall
          rw [getAllGeomList, getAllGeometries_point, getAllGeomList_of_points rest hrest]
          rfl
      | lineString pts => simp [isPointG, isLineStringG, isPolygonG] at hall
      | linearRing pts => simp [isPointG, isLineStringG, isPolygonG] at hall
      | polygon sh hl => simp [isPointG, isLineStringG, isPolygonG] at hall
      | multiPoint gs => simp [isPointG, isLineStringG, isPolygonG] at hall
      | multiLineString gs => simp [isPointG, isLineStringG, isPolygonG] at hall
      | multiPolygon gs => simp [isPointG, isLineStringG, isPolygonG] at hall
      | geometryCollection gs => simp [isPointG, isLineStringG, isPolygonG] at hall

/-- A list of line strings is its own leaf list. -/
theorem getAllGeomList_of_lines :
    ∀ gs : List Geometry, allLineStringG gs = true → getAllGeomList gs = gs
  | [] => fun _ => rfl
  | g :: rest => by
      intro hall
      rw [allLineStringG] at hall
      cases g with
      | lineString pts =>
          have hrest : allLineStringG rest = true := by simpa [isLineStringG] using hall
          rw [getAllGeomList, getAllGeometries_lineString, getAllGeomList_of_lines rest hrest]
          rfl
      | point c => simp [isPointG, isLineStringG, isPolygonG] at hall
      | linearRing pts => simp [isPointG, isLineStringG, isPolygonG] at hall
      | polygon sh hl => simp [isPointG, isLineStringG, isPolygonG] at hall
      | multiPoint gs => simp [isPointG, isLineStringG, isPolygonG] at hall
      | multiLineString gs => simp [isPointG, isLineStringG, isPolygonG] at hall
      | multiPolygon gs => simp [isPointG, isLineStringG, isPolygonG] at hall
      | geometryCollection gs => simp [isPointG, isLineStringG, isPolygonG] at hall

/-- A list of polygons is its own leaf list. -/
theorem getAllGeomList_of_polygons :
    ∀ gs : List Geometry, allPolygonG gs = true → getAllGeomList gs = gs
  | [] => fun _ => rfl
  | g :: rest => by
      intro hall
      rw [allPolygonG] at hall
      cases g with
      | polygon sh hl =>
          have hrest : allPolygonG rest = true := by simpa [isPolygonG] using hall
          rw [getAllGeomList, getAllGeometries_polygon, getAllGeomList_of_polygons rest hrest]
          rfl
      | point c => simp [isPointG, isLineStringG, isPolygonG] at hall
      | lineString pts => simp [isPointG, isLineStringG, isPolygonG] at hall
      | linearRing pts => simp [isPointG, isLineStringG, isPolygonG] at hall
      | multiPoint gs => simp [isPointG, isLineStringG, isPolygonG] at hall
      | multiLineString gs => simp [isPointG, isLineStringG, isPolygonG] at hall
      | multiPolygon gs => simp [isPointG, isLineStringG, isPolygonG] at hall
      | geometryCollection gs => simp [isPointG, isLineStringG, isPolygonG] at hall

/-- Members of an all-point list are points of dimension P. -/
theorem allPointG_mem :
    ∀ (gs : List Geometry) (e : Geometry), allPointG gs = true → e ∈ gs →
      dimensionOf e = 0 ∧ isSimpleLeaf e = true
  | [], e => by simp
  | g :: rest, e => by
      intro hall hmem
      rw [allPointG] at hall
      cases g with
      | point c =>
          have hrest : allPointG rest = true := by simpa [isPointG] using hall
          rcases List.mem_cons.mp hmem with he | he
          · subst he; exact ⟨rfl, rfl⟩
          · exact allPointG_mem rest e hrest he
      | lineString pts => simp [isPointG, isLineStringG, isPolygonG] at hall
      | linearRing pts => simp [isPointG, isLineStringG, isPolygonG] at hall
      | polygon sh hl => simp [isPointG, isLineStringG, isPolygonG] at hall
      | multiPoint gs => simp [isPointG, isLineStringG, isPolygonG] at hall
      | multiLineString gs => simp [isPointG, isLineStringG, isPolygonG] at hall
      | multiPolygon gs => simp [isPointG, isLineStringG, isPolygonG] at hall
      | geometryCollection gs => simp [isPointG, isLineStringG, isPolygonG] at hall

/-- Members of an all-line list are line strings of dimension L. -/
theorem allLineStringG_mem :
    ∀ (gs : List Geometry) (e : Geometry), allLineStringG gs = true → e ∈ gs →
      dimensionOf e = 1 ∧ isSimpleLeaf e = true
  | [], e => by simp
  | g :: rest, e => by
      intro hall hmem
      rw [allLineStringG] at hall
      cases g with
      | lineString pts =>
          have hrest : allLineStringG rest = true := by simpa [isLineStringG] using hall
          rcases List.mem_cons.mp hmem with he | he
          · subst he; exact ⟨rfl, rfl⟩
          · exact allLineStringG_mem rest e hrest he
      | point c => simp [isPointG, isLineStringG, isPolygonG] at hall
      | linearRing pts => simp [isPointG, isLineStringG, isPolygonG] at hall
      | polygon sh hl => simp [isPointG, isLineStringG, isPolygonG] at hall
      | multiPoint gs => simp [isPointG, isLineStringG, isPolygonG] at hall
      | multiLineString gs => simp [isPointG, isLineStringG, isPolygonG] at hall
      | multiPolygon gs => simp [isPointG, isLineStringG, isPolygonG] at hall
      | geometryCollection gs => simp [isPointG, isLineStringG, isPolygonG] at hall

/-- Members of an all-polygon list are polygons of dimension A. -/
theorem allPolygonG_mem :
    ∀ (gs : List Geometry) (e : Geometry), allPolygonG gs = true → e ∈ gs →
      dimensionOf e = 2 ∧ isSimpleLeaf e = true
  | [], e => by simp
  | g :: rest, e => by
      intro hall hmem
      rw [allPolygonG] at hall
      cases g with
      | polygon sh hl =>
          have hrest : allPolygonG rest = true := by simpa [isPolygonG] using hall
          rcases List.mem_cons.mp hmem with he | he
          · subst he; exact ⟨rfl, rfl⟩
          · exact allPolygonG_mem rest e hrest he
      | point c => simp [isPointG, isLineStringG, isPolygonG] at hall
      | lineString pts => simp [isPointG, isLineStringG, isPolygonG] at hall
      | linearRing pts => simp [isPointG, isLineStringG, isPolygonG] at hall
      | multiPoint gs => simp [isPointG, isLineStringG, isPolygonG] at hall
      | multiLineString gs => simp [isPointG, isLineStringG, isPolygonG] at hall
      | multiPolygon gs => simp [isPointG, isLineStringG, isPolygonG] at hall
      | geometryCollection gs => simp [isPointG, isLineStringG, isPolygonG] at hall

mutual

/-- Every simple component of a well-formed geometry is a Point, LineString
or Polygon. -/
theorem wf_leaves :
    ∀ g : Geometry, wfComponents g = true →
      ∀ e ∈ getAllGeometries g, isSimpleLeaf e = true
  | .point c => by
      intro _ e he
      rw [getAllGeometries_point] at he
      simp at he
      subst he
      rfl
  | .lineString pts => by
      intro _ e he
      rw [getAllGeometries_lineString] at he
      simp at he
      subst he
      rfl
  | .linearRing pts => by intro hwf; rw [wfComponents] at hwf; cases hwf
  | .polygon sh hl => by
      intro _ e he
      rw [getAllGeometries_polygon] at he
      simp at he
      subst he
      rfl
  | .multiPoint gs => by
      intro hwf e he
      rw [wfComponents] at hwf
      rw [getAllGeometries, getAllGeomList_of_points gs hwf] at he
      exact (allPointG_mem gs e hwf he).2
  | .multiLineString gs => by
      intro hwf e he
      rw [wfComponents] at hwf
      rw [getAllGeometries, getAllGeomList_of_lines gs hwf] at he
      exact (allLineStringG_mem gs e hwf he).2
  | .multiPolygon gs => by
      intro hwf e he
      rw [wfComponents] at hwf
      rw [getAllGeometries, getAllGeomList_of_polygons gs hwf] at he
      exact (allPolygonG_mem gs e hwf he).2
  | .geometryCollection gs => by
      intro hwf e he
      rw [wfComponents] at hwf
      rw [getAllGeometries] at he
      exact wf_leaves_list gs hwf e he

/-- Every simple component of a well-formed geometry list is a Point,
LineString or Polygon. -/
theorem wf_leaves_list :
    ∀ gs : List Geometry, allWfComponents gs = true →
      ∀ e ∈ getAllGeomList gs, isSimpleLeaf e = true
  | [] => by simp [getAllGeomList]
  | g :: rest => by
      intro hall e he
      rw [allWfComponents] at hall
      have hg : wfComponents g = true := by
        cases hx : wfComponents g with
        | true => rfl
        | false => rw [hx] at hall; simp at hall
      have hrest : allWfComponents rest = true := by
        cases hx : allWfComponents rest with
        | true => rfl
        | false => rw [hx] at hall; simp at hall
      rw [getAllGeomList] at he
      rcases List.mem_append.mp he with hl | hr
      · exact wf_leaves g hg e hl
      · exact wf_leaves_list rest hrest e hr

end

/-- On a simple leaf, the element loop body either skips (empty element) or
folds the leaf dimension into the flags and `geomDim`. -/
theorem analyzeElem_simple (s : RelateGeometryState) (e : Geometry)
    (he : isSimpleLeaf e = true) :
    analyzeElem s e =
      if e.isEmpty then s
      else
        { s with
          hasPoints := s.hasPoints || (dimensionOf e == 0)
          hasLines := s.hasLines || (dimensionOf e == 1)
          hasAreas := s.hasAreas || (dimensionOf e == 2)
          geomDim := max s.geomDim (dimensionOf e) } := by
  rcases s with ⟨sg, sp, se, sr, sd, szl, semp, shp, shl, sha, sloc, sup⟩
  cases e with
  | point c =>
      by_cases hemp : (Geometry.point c).isEmpty = true <;>
        simp [analyzeElem, hemp, Geometry.typeId, dimensionOf]
  | lineString pts =>
      by_cases hemp : (Geometry.lineString pts).isEmpty = true <;>
        simp [analyzeElem, hemp, Geometry.typeId, dimensionOf]
  | polygon sh hl =>
      by_cases hemp : (Geometry.polygon sh hl).isEmpty = true <;>
        simp [analyzeElem, hemp, Geometry.typeId, dimensionOf]
  | linearRing pts => simp [isSimpleLeaf] at he
  | multiPoint gs => simp [isSimpleLeaf] at he
  | multiLineString gs => simp [isSimpleLeaf] at he
  | multiPolygon gs => simp [isSimpleLeaf] at he
  | geometryCollection gs => simp [isSimpleLeaf] at he

/-- The element-loop fold over simple leaves computes the three flags as
presence of a non-empty leaf of each dimension, and `geomDim` as the running
maximum of non-empty leaf dimensions. -/
theorem foldl_analyzeElem_char :
    ∀ l : List Geometry, (∀ e ∈ l, isSimpleLeaf e = true) →
      ∀ s : RelateGeometryState,
        (l.foldl analyzeElem s).hasPoints
          = (s.hasPoints
              || (l.filter (fun e => !e.isEmpty)).any (fun e => dimensionOf e == 0)) ∧
        (l.foldl analyzeElem s).hasLines
          = (s.hasLines
              || (l.filter (fun e => !e.isEmpty)).any (fun e => dimensionOf e == 1)) ∧
        (l.foldl analyzeElem s).hasAreas
          = (s.hasAreas
              || (l.filter (fun e => !e.isEmpty)).any (fun e => dimensionOf e == 2)) ∧
        (l.foldl analyzeElem s).geomDim
          = (l.filter (fun e => !e.isEmpty)).foldl
              (fun m e => max m (dimensionOf e)) s.geomDim
  | [] => by intro _ s; simp
  | e :: rest => by
      intro hl s
      have he := hl e (List.mem_cons_self e rest)
      have hrest : ∀ x ∈ rest, isSimpleLeaf x = true :=
        fun x hx => hl x (List.mem_cons_of_mem e hx)
      rw [List.foldl_cons, analyzeElem_simple s e he]
      by_cases hemp : e.isEmpty = true
      · rw [if_pos hemp]
        have hfil : (e :: rest).filter (fun x => !x.isEmpty)
            = rest.filter (fun x => !x.isEmpty) := by
          simp [List.filter_cons, hemp]
        rw [hfil]
        exact foldl_analyzeElem_char rest hrest s
      · have hemp' : e.isEmpty = false := by simpa using hemp
        rw [if_neg hemp]
        have hfil : (e :: rest).filter (fun x => !x.isEmpty)
            = e :: rest.filter (fun x => !x.isEmpty) := by
          simp [List.filter_cons, hemp']
        rw [hfil]
        obtain ⟨ih1, ih2, ih3, ih4⟩ := foldl_analyzeElem_char rest hrest
          { s with
            hasPoints := s.hasPoints || (dimensionOf e == 0)
            hasLines := s.hasLines || (dimensionOf e == 1)
            hasAreas := s.hasAreas || (dimensionOf e == 2)
            geomDim := max s.geomDim (dimensionOf e) }

        refine ⟨?_, ?_, ?_, ?_⟩
        · rw [ih1]; simp [Bool.or_assoc]
        · rw [ih2]; simp [Bool.or_assoc]
        · rw [ih3]; simp [Bool.or_assoc]
        · rw [ih4]; simp

/-- Folding the maximum of dimensions bounded by the base leaves the base. -/
theorem foldl_max_le {b : Int} :
    ∀ l : List Geometry, (∀ e ∈ l, dimensionOf e ≤ b) →
      l.foldl (fun m e => max m (dimensionOf e)) b = b
  | [] => fun _ => rfl
  | e :: rest => by
      intro h
      rw [List.foldl_cons]
      have h1 : max b (dimensionOf e) = b :=
        max_eq_left (h e (List.mem_cons_self e rest))
      rw [h1]
      exact foldl_max_le rest (fun x hx => h x (List.mem_cons_of_mem e hx))

/-- A not-all-empty list has a non-empty member. -/
theorem allEmpty_false_mem :
    ∀ gs : List Geometry, allEmpty gs = false → ∃ e ∈ gs, e.isEmpty = false
  | [] => by simp [allEmpty]
  | g :: rest => by
      intro h
      rw [allEmpty] at h
      by_cases hg : g.isEmpty = true
      · have hrest : allEmpty rest = false := by simpa [hg] using h
        obtain ⟨e, he, hne⟩ := allEmpty_false_mem rest hrest
        exact ⟨e, List.mem_cons_of_mem _ he, hne⟩
      · exact ⟨g, List.mem_cons_self _ _, by simpa using hg⟩

/-- On a non-empty geometry of collection fallthrough type,
`analyzeDimensions` is the element-loop fold over the simple components. -/
theorem analyzeDimensions_gc (s : RelateGeometryState)
    (hne : s.isGeomEmpty = false)
    (hty : s.geom.typeId = .GEOS_GEOMETRYCOLLECTION) :
    analyzeDimensions s = (getAllGeometries s.geom).foldl analyzeElem s := by
  unfold analyzeDimensions
  rw [if_neg (by simp [hne]), if_neg (by rw [hty]; simp),
    if_neg (by rw [hty]; simp), if_neg (by rw [hty]; simp)]

/-- Counterexample to claim C4 as stated: for the collection holding an
empty Polygon and a non-empty LinearRing, every non-empty simple component
has dimension L (1), yet the constructor leaves `hasLines` false (the
element loop tests for exact type LINESTRING, missing the LinearRing) and
sets `geomDim` to 2 (it starts from the type-based dimension, which counts
the empty Polygon) rather than to the maximum dimension 1 of the non-empty
elements. -/
theorem analyzeDimensions_claim_cex :
    (mkRelateGeometry
        (Geometry.geometryCollection
          [Geometry.polygon [] [],
           Geometry.linearRing [⟨0, 0⟩, ⟨5, 0⟩, ⟨5, 5⟩, ⟨0, 0⟩]])
        false .Mod2).hasLines = false ∧
    specHasDim
      (Geometry.geometryCollection
        [Geometry.polygon [] [],
         Geometry.linearRing [⟨0, 0⟩, ⟨5, 0⟩, ⟨5, 5⟩, ⟨0, 0⟩]]) 1 = true ∧
    (mkRelateGeometry
        (Geometry.geometryCollection
          [Geometry.polygon [] [],
           Geometry.linearRing [⟨0, 0⟩, ⟨5, 0⟩, ⟨5, 5⟩, ⟨0, 0⟩]])
        false .Mod2).geomDim = 2 ∧
    (∀ e ∈ nonEmptyLeaves
        (Geometry.geometryCollection
          [Geometry.polygon [] [],
           Geometry.linearRing [⟨0, 0⟩, ⟨5, 0⟩, ⟨5, 5⟩, ⟨0, 0⟩]]),
      dimensionOf e = 1) := by
  refine ⟨rfl, rfl, rfl, ?_⟩
  decide

/-- Claim C4, amended.  For every non-empty input built from Point,
LineString and Polygon atoms (no LinearRing components), construction sets
`hasPoints` / `hasLines` / `hasAreas` to whether the input contains a
non-empty element of dimension P / L / A (recursing into collections and
skipping empty elements), and sets `geomDim` to the maximum of the input's
type-based dimension (which counts empty elements) and the dimensions of
the non-empty elements. -/
theorem analyzeDimensions_amended (g : Geometry) (prep : Bool) (r : BoundaryNodeRule)
    (hne : g.isEmpty = false) (hwf : wfComponents g = true) :
    (mkRelateGeometry g prep r).hasPoints = specHasDim g 0 ∧
    (mkRelateGeometry g prep r).hasLines = specHasDim g 1 ∧
    (mkRelateGeometry g prep r).hasAreas = specHasDim g 2 ∧
    (mkRelateGeometry g prep r).geomDim = specGeomDim g (dimensionOf g) := by
  cases g with
  | point c =>
      refine ⟨?_, ?_, ?_, ?_⟩ <;>
        simp [mkRelateGeometry, initRelateGeometry, analyzeDimensions,
          Geometry.typeId, hne, specHasDim, specGeomDim, nonEmptyLeaves,
          getAllGeometries, dimensionOf]
  | lineString pts =>
      refine ⟨?_, ?_, ?_, ?_⟩ <;>
        simp [mkRelateGeometry, initRelateGeometry, analyzeDimensions,
          Geometry.typeId, hne, specHasDim, specGeomDim, nonEmptyLeaves,
          getAllGeometries, dimensionOf]
  | polygon sh hl =>
      refine ⟨?_, ?_, ?_, ?_⟩ <;>
        simp [mkRelateGeometry, initRelateGeometry, analyzeDimensions,
          Geometry.typeId, hne, specHasDim, specGeomDim, nonEmptyLeaves,
          getAllGeometries, dimensionOf]
  | linearRing pts => simp [wfComponents] at hwf
  | multiPoint gs =>
      have hne' : allEmpty gs = false := by
        rw [Geometry.isEmpty] at hne
        exact hne
      have hwf' : allPointG gs = true := by
        rw [wfComponents] at hwf
        exact hwf
      obtain ⟨e0, he0, hne0⟩ := allEmpty_false_mem gs hne'
      have hleaves : getAllGeometries (Geometry.multiPoint gs) = gs := by
        rw [getAllGeometries]
        exact getAllGeomList_of_points gs hwf'
      have hdim : ∀ e ∈ gs, dimensionOf e = 0 :=
        fun e he => (allPointG_mem gs e hwf' he).1
      refine ⟨?_, ?_, ?_, ?_⟩
      · have hspec : specHasDim (Geometry.multiPoint gs) 0 = true := by
          rw [specHasDim, nonEmptyLeaves, hleaves]
          apply List.any_eq_true.mpr
          exact ⟨e0, List.mem_filter.mpr ⟨he0, by simp [hne0]⟩, by simp [hdim e0 he0]⟩
        rw [hspec]
        simp [mkRelateGeometry, initRelateGeometry, analyzeDimensions,
          Geometry.typeId, hne]
      · have hspec : specHasDim (Geometry.multiPoint gs) 1 = false := by
          rw [specHasDim, nonEmptyLeaves, hleaves]
          apply List.any_eq_false.mpr
          intro e hef
          simp [hdim e (List.mem_filter.mp hef).1]
        rw [hspec]
        simp [mkRelateGeometry, initRelateGeometry, analyzeDimensions,
          Geometry.typeId, hne]
      · have hspec : specHasDim (Geometry.multiPoint gs) 2 = false := by
          rw [specHasDim, nonEmptyLeaves, hleaves]
          apply List.any_eq_false.mpr
          intro e hef
          simp [hdim e (List.mem_filter.mp hef).1]
        rw [hspec]
        simp [mkRelateGeometry, initRelateGeometry, analyzeDimensions,
          Geometry.typeId, hne]
      · have hspec : specGeomDim (Geometry.multiPoint gs) 0 = 0 := by
          rw [specGeomDim, nonEmptyLeaves, hleaves]
          apply foldl_max_le
          intro e hef
          rw [hdim e (List.mem_filter.mp hef).1]
        rw [dimensionOf, hspec]
        simp [mkRelateGeometry, initRelateGeometry, analyzeDimensions,
          Geometry.typeId, hne]
  | multiLineString gs =>
      have hne' : allEmpty gs = false := by
        rw [Geometry.isEmpty] at hne
        exact hne
      have hwf' : allLineStringG gs = true := by
        rw [wfComponents] at hwf
        exact hwf
      obtain ⟨e0, he0, hne0⟩ := allEmpty_false_mem gs hne'
      have hleaves : getAllGeometries (Geometry.multiLineString gs) = gs := by
        rw [getAllGeometries]
        exact getAllGeomList_of_lines gs hwf'
      have hdim : ∀ e ∈ gs, dimensionOf e = 1 :=
        fun e he => (allLineStringG_mem gs e hwf' he).1
      refine ⟨?_, ?_, ?_, ?_⟩
      · have hspec : specHasDim (Geometry.multiLineString gs) 0 = false := by
          rw [specHasDim, nonEmptyLeaves, hleaves]
          apply List.any_eq_false.mpr
          intro e hef
          simp [hdim e (List.mem_filter.mp hef).1]
        rw [hspec]
        simp [mkRelateGeometry, initRelateGeometry, analyzeDimensions,
          Geometry.typeId, hne]
      · have hspec : specHasDim (Geometry.multiLineString gs) 1 = true := by
          rw [specHasDim, nonEmptyLeaves, hleaves]
          apply List.any_eq_true.mpr
          exact ⟨e0, List.mem_filter.mpr ⟨he0, by simp [hne0]⟩, by simp [hdim e0 he0]⟩
        rw [hspec]
        simp [mkRelateGeometry, initRelateGeometry, analyzeDimensions,
          Geometry.typeId, hne]
      · have hspec : specHasDim (Geometry.multiLineString gs) 2 = false := by
          rw [specHasDim, nonEmptyLeaves, hleaves]
          apply List.any_eq_false.mpr
          intro e hef
          simp [hdim e (List.mem_filter.mp hef).1]
        rw [hspec]
        simp [mkRelateGeometry, initRelateGeometry, analyzeDimensions,
          Geometry.typeId, hne]
      · have hspec : specGeomDim (Geometry.multiLineString gs) 1 = 1 := by
          rw [specGeomDim, nonEmptyLeaves, hleaves]
          apply foldl_max_le
          intro e hef
          rw [hdim e (List.mem_filter.mp hef).1]
        rw [dimensionOf, hspec]
        simp [mkRelateGeometry, initRelateGeometry, analyzeDimensions,
          Geometry.typeId, hne]
  | multiPolygon gs =>
      have hne' : allEmpty gs = false := by
        rw [Geometry.isEmpty] at hne
        exact hne
      have hwf' : allPolygonG gs = true := by
        rw [wfComponents] at hwf
        exact hwf
      obtain ⟨e0, he0, hne0⟩ := allEmpty_false_mem gs hne'
      have hleaves : getAllGeometries (Geometry.multiPolygon gs) = gs := by
        rw [getAllGeometries]
        exact getAllGeomList_of_polygons gs hwf'
      have hdim : ∀ e ∈ gs, dimensionOf e = 2 :=
        fun e he => (allPolygonG_mem gs e hwf' he).1
      refine ⟨?_, ?_, ?_, ?_⟩
      · have hspec : specHasDim (Geometry.multiPolygon gs) 0 = false := by
          rw [specHasDim, nonEmptyLeaves, hleaves]
          apply List.any_eq_false.mpr
          intro e hef
          simp [hdim e (List.mem_filter.mp hef).1]
        rw [hspec]
        simp [mkRelateGeometry, initRelateGeometry, analyzeDimensions,
          Geometry.typeId, hne]
      · have hspec : specHasDim (Geometry.multiPolygon gs) 1 = false := by
          rw [specHasDim, nonEmptyLeaves, hleaves]
          apply List.any_eq_false.mpr
          intro e hef
          simp [hdim e (List.mem_filter.mp hef).1]
        rw [hspec]
        simp [mkRelateGeometry, initRelateGeometry, analyzeDimensions,
          Geometry.typeId, hne]
      · have hspec : specHasDim (Geometry.multiPolygon gs) 2 = true := by
          rw [specHasDim, nonEmptyLeaves, hleaves]
          apply List.any_eq_true.mpr
          exact ⟨e0, List.mem_filter.mpr ⟨he0, by simp [hne0]⟩, by simp [hdim e0 he0]⟩
        rw [hspec]
        simp [mkRelateGeometry, initRelateGeometry, analyzeDimensions,
          Geometry.typeId, hne]
      · have hspec : specGeomDim (Geometry.multiPolygon gs) 2 = 2 := by
          rw [specGeomDim, nonEmptyLeaves, hleaves]
          apply foldl_max_le
          intro e hef
          rw [hdim e (List.mem_filter.mp hef).1]
        rw [dimensionOf, hspec]
        simp [mkRelateGeometry, initRelateGeometry, analyzeDimensions,
          Geometry.typeId, hne]
  | geometryCollection gs =>
      have hsimple := wf_leaves (Geometry.geometryCollection gs) hwf
      have hAD : mkRelateGeometry (Geometry.geometryCollection gs) prep r
          = (getAllGeometries (Geometry.geometryCollection gs)).foldl analyzeElem
              (initRelateGeometry (Geometry.geometryCollection gs) prep r) := by
        rw [mkRelateGeometry]
        exact analyzeDimensions_gc _ hne rfl
      obtain ⟨hc1, hc2, hc3, hc4⟩ :=
        foldl_analyzeElem_char (getAllGeometries (Geometry.geometryCollection gs))
          hsimple (initRelateGeometry (Geometry.geometryCollection gs) prep r)
      rw [hAD]
      refine ⟨?_, ?_, ?_, ?_⟩
      · rw [hc1]
        simp [initRelateGeometry, specHasDim, nonEmptyLeaves]
      · rw [hc2]
        simp [initRelateGeometry, specHasDim, nonEmptyLeaves]
      · rw [hc3]
        simp [initRelateGeometry, specHasDim, nonEmptyLeaves]
      · rw [hc4]
        simp [initRelateGeometry, specGeomDim, nonEmptyLeaves]

/-- Witness for the amended C4: a concrete mixed collection of a point and
a square polygon. -/
theorem analyzeDimensions_amended_witness :
    (mkRelateGeometry
        (Geometry.geometryCollection
          [Geometry.point (some ⟨9, 9⟩),
           Geometry.polygon [⟨0, 0⟩, ⟨2, 0⟩, ⟨2, 2⟩, ⟨0, 0⟩] []])
        false .Mod2).hasPoints =
      specHasDim
        (Geometry.geometryCollection
          [Geometry.point (some ⟨9, 9⟩),
           Geometry.polygon [⟨0, 0⟩, ⟨2, 0⟩, ⟨2, 2⟩, ⟨0, 0⟩] []]) 0 ∧
    (mkRelateGeometry
        (Geometry.geometryCollection
          [Geometry.point (some ⟨9, 9⟩),
           Geometry.polygon [⟨0, 0⟩, ⟨2, 0⟩, ⟨2, 2⟩, ⟨0, 0⟩] []])
        false .Mod2).hasLines =
      specHasDim
        (Geometry.geometryCollection
          [Geometry.point (some ⟨9, 9⟩),
           Geometry.polygon [⟨0, 0⟩, ⟨2, 0⟩, ⟨2, 2⟩, ⟨0, 0⟩] []]) 1 ∧
    (mkRelateGeometry
        (Geometry.geometryCollection
          [Geometry.point (some ⟨9, 9⟩),
           Geometry.polygon [⟨0, 0⟩, ⟨2, 0⟩, ⟨2, 2⟩, ⟨0, 0⟩] []])
        false .Mod2).hasAreas =
      specHasDim
        (Geometry.geometryCollection
          [Geometry.point (some ⟨9, 9⟩),
           Geometry.polygon [⟨0, 0⟩, ⟨2, 0⟩, ⟨2, 2⟩, ⟨0, 0⟩] []]) 2 ∧
    (mkRelateGeometry
        (Geometry.geometryCollection
          [Geometry.point (some ⟨9, 9⟩),
           Geometry.polygon [⟨0, 0⟩, ⟨2, 0⟩, ⟨2, 2⟩, ⟨0, 0⟩] []])
        false .Mod2).geomDim =
      specGeomDim
        (Geometry.geometryCollection
          [Geometry.point (some ⟨9, 9⟩),
           Geometry.polygon [⟨0, 0⟩, ⟨2, 0⟩, ⟨2, 2⟩, ⟨0, 0⟩] []])
        (dimensionOf
          (Geometry.geometryCollection
            [Geometry.point (some ⟨9, 9⟩),
             Geometry.polygon [⟨0, 0⟩, ⟨2, 0⟩, ⟨2, 2⟩, ⟨0, 0⟩] []])) :=
  analyzeDimensions_amended
    (Geometry.geometryCollection
      [Geometry.point (some ⟨9, 9⟩),
       Geometry.polygon [⟨0, 0⟩, ⟨2, 0⟩, ⟨2, 2⟩, ⟨0, 0⟩] []])
    false .Mod2 (by decide) (by decide)

end GeosSpec
